import Mathlib

/-!
# TabsBar (rekit-studio): tab matching, navigation and the close protocol

A shallow embedding of `src/packages/rekit-studio/src/features/home/TabsBar.js`.

* JavaScript strings are modelled as `List Char`, that is, as sequences of Unicode
  scalar values.  Strings holding an unpaired surrogate are therefore outside the
  model (on those `encodeURIComponent` would throw a `URIError`).
* `encodeURIComponent` and `decodeURIComponent` follow the `Encode` and `Decode`
  abstract operations of ECMA-262.
* The component's surroundings (props, `document.location`, the editor-state
  cache, the model manager, and everything it emits: console lines, store
  requests, navigation pushes and confirmation prompts) are one explicit `World`.
-/

namespace TabsBar

/-- JavaScript string, as a sequence of Unicode scalar values. -/
abbrev Str := List Char

/-- Exceptions the component can raise. -/
inductive JsError where
  | typeError
  | uriError
  deriving DecidableEq

/-- The JavaScript values `getCurrentFile` can return. -/
inductive JsVal where
  | undefined
  | null
  | str (s : Str)
  deriving DecidableEq

deriving instance DecidableEq for Except

/-! ## URI component coding (ECMA-262 `Encode` / `Decode`) -/

/-- Characters `encodeURIComponent` leaves as they are: ASCII letters, decimal
digits and the marks `- _ . ! ~ * ' ( )`. -/
def isUnescaped (c : Char) : Bool :=
  c.isAlphanum || "-_.!~*'()".toList.contains c

/-- Upper-case hexadecimal digit of a value below 16. -/
def hexDigit (n : Nat) : Char :=
  if n < 10 then Char.ofNat (48 + n) else Char.ofNat (55 + n)

/-- Value of a hexadecimal digit, either case. -/
def hexValue (c : Char) : Option Nat :=
  let v := c.toNat
  if 48 ≤ v ∧ v ≤ 57 then some (v - 48)
  else if 65 ≤ v ∧ v ≤ 70 then some (v - 55)
  else if 97 ≤ v ∧ v ≤ 102 then some (v - 87)
  else none

/-- The UTF-8 octets of a Unicode scalar value. -/
def utf8Octets (c : Char) : List Nat :=
  let v := c.toNat
  if v < 0x80 then [v]
  else if v < 0x800 then [0xC0 + v / 64, 0x80 + v % 64]
  else if v < 0x10000 then [0xE0 + v / 4096, 0x80 + v / 64 % 64, 0x80 + v % 64]
  else [0xF0 + v / 262144, 0x80 + v / 4096 % 64, 0x80 + v / 64 % 64, 0x80 + v % 64]

/-- The escape `%XY` of one octet. -/
def escapeOctet (b : Nat) : Str :=
  ['%', hexDigit (b / 16), hexDigit (b % 16)]

/-- What `encodeURIComponent` emits for one character. -/
def encodeChar (c : Char) : Str :=
  if isUnescaped c then [c] else (utf8Octets c).flatMap escapeOctet

/-- The built-in `encodeURIComponent(s)`. -/
def encodeURIComponent (s : Str) : Str :=
  s.flatMap encodeChar

/-- The operation `ParseHexOctet`: the octet written by two hexadecimal digits. -/
def parseHexOctet (h l : Char) : Option Nat :=
  match hexValue h, hexValue l with
  | some a, some b => some (16 * a + b)
  | _, _ => none

/-- A continuation escape `%XY` inside a multi-octet sequence: the octet, when the
three characters are a percent sign and two hexadecimal digits. -/
def contOctet (p h l : Char) : Option Nat :=
  if p = '%' then parseHexOctet h l else none

/-- Whether an octet is a UTF-8 continuation octet `10xxxxxx`. -/
def isCont (b : Nat) : Bool :=
  0x80 ≤ b && b < 0xC0

/-- The scalar value with number `v`, when `v` is one. -/
def scalar (v : Nat) : Option Char :=
  if v < 0xD800 ∨ (0xDFFF < v ∧ v < 0x110000) then some (Char.ofNat v) else none

/-- Two octets as a code point: valid UTF-8 only (no overlong form). -/
def utf8Two (b0 b1 : Nat) : Option Char :=
  let v := (b0 - 0xC0) * 64 + (b1 - 0x80)
  if isCont b1 && 0x80 ≤ v then scalar v else none

/-- Three octets as a code point: valid UTF-8 only (no overlong form, no surrogate). -/
def utf8Three (b0 b1 b2 : Nat) : Option Char :=
  let v := (b0 - 0xE0) * 4096 + (b1 - 0x80) * 64 + (b2 - 0x80)
  if isCont b1 && isCont b2 && 0x800 ≤ v then scalar v else none

/-- Four octets as a code point: valid UTF-8 only (no overlong form, at most U+10FFFF). -/
def utf8Four (b0 b1 b2 b3 : Nat) : Option Char :=
  let v := (b0 - 0xF0) * 262144 + (b1 - 0x80) * 4096 + (b2 - 0x80) * 64 + (b3 - 0x80)
  if isCont b1 && isCont b2 && isCont b3 && 0x10000 ≤ v then scalar v else none

/-- Prepends a decoded character to the decoding of the rest. -/
def consChar (c : Char) (r : Except JsError Str) : Except JsError Str :=
  match r with
  | .ok s => .ok (c :: s)
  | .error e => .error e

/-- One round of the loop of `Decode`, at the character `c` followed by `rest`:
the decoded character and how many characters of `rest` the round consumed.  A
`%XY` is read as an octet, a leading octet takes its continuation escapes with
it, and anything malformed throws a `URIError`. -/
def decodeStep (c : Char) (rest : Str) : Except JsError (Char × Nat) :=
  if c ≠ '%' then .ok (c, 0)
  else
    match rest with
    | h :: l :: r1 =>
      match parseHexOctet h l with
      | none => .error .uriError
      | some b =>
        if b < 0x80 then .ok (Char.ofNat b, 2)
        else if b < 0xC0 then .error .uriError
        else if b < 0xE0 then
          match r1 with
          | p1 :: h1 :: l1 :: _ =>
            match contOctet p1 h1 l1 with
            | none => .error .uriError
            | some b1 =>
              match utf8Two b b1 with
              | none => .error .uriError
              | some ch => .ok (ch, 5)
          | _ => .error .uriError
        else if b < 0xF0 then
          match r1 with
          | p1 :: h1 :: l1 :: p2 :: h2 :: l2 :: _ =>
            match contOctet p1 h1 l1, contOctet p2 h2 l2 with
            | some b1, some b2 =>
              match utf8Three b b1 b2 with
              | none => .error .uriError
              | some ch => .ok (ch, 8)
            | _, _ => .error .uriError
          | _ => .error .uriError
        else if b < 0xF8 then
          match r1 with
          | p1 :: h1 :: l1 :: p2 :: h2 :: l2 :: p3 :: h3 :: l3 :: _ =>
            match contOctet p1 h1 l1, contOctet p2 h2 l2, contOctet p3 h3 l3 with
            | some b1, some b2, some b3 =>
              match utf8Four b b1 b2 b3 with
              | none => .error .uriError
              | some ch => .ok (ch, 11)
            | _, _, _ => .error .uriError
          | _ => .error .uriError
        else .error .uriError
    | _ => .error .uriError

/-- The loop of `Decode` over the string: `skip` characters belong to the round
before and are passed over, then a round starts at the next character. -/
def decodeFrom : Nat → Str → Except JsError Str
  | _, [] => .ok []
  | skip + 1, _ :: rest => decodeFrom skip rest
  | 0, c :: rest =>
    match decodeStep c rest with
    | .error e => .error e
    | .ok (ch, used) => consChar ch (decodeFrom used rest)

/-- The built-in `decodeURIComponent(s)`. -/
def decodeURIComponent (s : Str) : Except JsError Str :=
  decodeFrom 0 s

/-! ## String helpers used by the component -/

/-- The call `s.split('/')`, for the one-character separator `sep`: the pieces between the
separators, empty pieces included (the empty string splits into one empty piece). -/
def split (sep : Char) : Str → List Str
  | [] => [[]]
  | c :: cs =>
    if c = sep then [] :: split sep cs
    else
      match split sep cs with
      | [] => [[c]]
      | seg :: segs => (c :: seg) :: segs

/-- Lodash `_.compact` on an array of strings: drops the falsy ones, which for
strings are the empty ones. -/
def compact (xs : List Str) : List Str :=
  xs.filter (fun x => !x.isEmpty)

/-- The call `xs.map(decodeURIComponent)`: decodes left to right, the first failure throws. -/
def mapDecode : List Str → Except JsError (List Str)
  | [] => .ok []
  | x :: xs =>
    match decodeURIComponent x with
    | .error e => .error e
    | .ok y =>
      match mapDecode xs with
      | .error e => .error e
      | .ok ys => .ok (y :: ys)

/-- Lodash `_.startsWith(s, target)`, also `s.indexOf(target) === 0`. -/
def startsWith (s target : Str) : Bool :=
  target.isPrefixOf s

/-- An array element `arr[i]` as a JavaScript value: `undefined` past the end. -/
def elemAt (arr : List Str) (i : Nat) : JsVal :=
  match arr.get? i with
  | some s => .str s
  | none => .undefined

/-! ## Data model -/

/-- A tab of `props.home.openTabs`.  `subTab` and `pathname` are optional
(`none` is `undefined`). -/
structure Tab where
  key : Str
  type : Str
  name : Str
  icon : Option Str
  subTab : Option Str
  pathname : Option Str
  deriving DecidableEq

/-- The buffer ids `getElementFiles` resolves for a tab key. -/
structure Files where
  code : Str
  test : Str
  style : Str
  deriving DecidableEq

/-- A catalog entry of `props.home.elementById`. -/
structure Element where
  name : Str
  feature : Option Str
  deriving DecidableEq

/-- The slice `props.home` of the store. -/
structure Home where
  openTabs : List Tab
  historyTabs : List Str
  elementById : List (Str × Element)
  projectRoot : Str
  deriving DecidableEq

/-- The argument of `Modal.confirm`: its texts, and the variables the `onOk`
callback closes over. -/
structure Prompt where
  title : Str
  content : Str
  okText : Str
  files : Files
  tab : Tab
  deriving DecidableEq

/-- What the component emits, in the order it happens. -/
inductive Effect where
  | consoleLog (key : Str)
  | consoleError (tab : Tab)
  | stopPropagation
  | closeTab (key : Str)
  | push (path : Option Str)
  | confirm (p : Prompt)
  deriving DecidableEq

/-- Everything the component reads and writes. -/
structure World where
  /-- the props slice `this.props.home` -/
  home : Home
  /-- the pathname `this.props.router.location.pathname` -/
  routerPathname : Str
  /-- the pathname `document.location.pathname` -/
  docPathname : Str
  /-- the module `editorStateMap`: own properties, by buffer id -/
  editorStateMap : List (Str × Nat)
  /-- the models `modelManager` holds, each with its changed flag -/
  models : List (Str × Bool)
  /-- emitted effects, oldest first -/
  trace : List Effect
  deriving DecidableEq

/-- A run of a handler: the world it leaves and the exception it ended with, if any. -/
structure Outcome where
  world : World
  error : Option JsError
  deriving DecidableEq

/-- Appends an effect to the trace. -/
def World.emit (w : World) (e : Effect) : World :=
  { w with trace := w.trace ++ [e] }

/-- The navigation pushes of a trace, oldest first. -/
def pushes (t : List Effect) : List (Option Str) :=
  t.filterMap (fun e => match e with | .push p => some p | _ => none)

/-- The `closeTab` requests of a trace, oldest first. -/
def closeRequests (t : List Effect) : List Str :=
  t.filterMap (fun e => match e with | .closeTab k => some k | _ => none)

/-- The confirmation prompts of a trace, oldest first. -/
def prompts (t : List Effect) : List Prompt :=
  t.filterMap (fun e => match e with | .confirm p => some p | _ => none)

/-- Modelled from the spec: `history.push(path)` of `common/history`, which is not
among the sources.  "`push` is a request, assumed to update `pathname` before the
next read": the push is recorded and both pathnames become the pushed path.  A
push of `undefined` is recorded and leaves the pathnames as they are. -/
def World.push (w : World) (path : Option Str) : World :=
  let w1 := w.emit (.push path)
  match path with
  | some p => { w1 with routerPathname := p, docPathname := p }
  | none => w1

/-- Modelled from the spec: `modelManager.isChanged(bufferId)` of the change tracker,
which is not among the sources: whether the buffer has a model marked changed. -/
def modelIsChanged (models : List (Str × Bool)) (id : Str) : Bool :=
  models.lookup id == some true

/-- Modelled from the spec: `modelManager.dispose(bufferId)`, idempotent: the buffer
has no model afterwards, the other models are kept. -/
def modelDispose (models : List (Str × Bool)) (id : Str) : List (Str × Bool) :=
  models.filter (fun m => m.1 != id)

/-- The statement `delete editorStateMap[id]`: the entry under `id` is gone, the
others are kept; no error when there was none. -/
def deleteKey (m : List (Str × Nat)) (id : Str) : List (Str × Nat) :=
  m.filter (fun e => e.1 != id)

/-! ## The component -/

/-- The method `getCurrentFile()`. -/
def getCurrentFile (w : World) : Except JsError JsVal :=
  match mapDecode (compact (split '/' w.routerPathname)) with
  | .error e => .error e
  | .ok arr =>
    if elemAt arr 0 = .str "element".toList then .ok (elemAt arr 1)
    else .ok .null

/-- The method `isCurrentTab(tab)`. -/
def isCurrentTab (w : World) (tab : Tab) : Except JsError Bool :=
  let pathname := w.docPathname
  if tab.type = "home".toList then .ok (pathname == "/".toList)
  else if tab.type = "element".toList then
    match getCurrentFile w with
    | .error e => .error e
    | .ok v => .ok (JsVal.str tab.key == v)
  else if tab.type = "routes".toList then .ok (startsWith pathname ("/".toList ++ tab.key))
  else if tab.type = "tests".toList then .ok (startsWith pathname "/tools/tests".toList)
  else if tab.type = "coverage".toList then .ok (startsWith pathname "/tools/coverage".toList)
  else if tab.type = "build".toList then .ok (startsWith pathname "/tools/build".toList)
  else .ok false

/-- Lodash `_.find` over `openTabs` by `key`: the first tab whose key is `key`.  The
key may be `undefined` (`none`), which is the key of no tab. -/
def findTab (openTabs : List Tab) (key : Option Str) : Option Tab :=
  match key with
  | none => none
  | some k => openTabs.find? (fun t => t.key == k)

/-- A template-literal hole holding an optional string: `undefined` is spelled out. -/
def interpolate (v : Option Str) : Str :=
  match v with
  | some s => s
  | none => "undefined".toList

/-- The `switch` of `openTab`: the value of `path` after it (`none` is `undefined`),
and whether the default case logged the tab. -/
def tabPath (key : Option Str) (tab : Tab) : Option Str × Bool :=
  if tab.type = "home".toList then (some "/".toList, false)
  else if tab.type = "element".toList then
    (some ("/element/".toList ++ encodeURIComponent (interpolate key) ++ "/".toList ++
      interpolate tab.subTab), false)
  else if tab.type = "routes".toList then
    (some ("/".toList ++ tab.key ++ "/".toList ++ tab.subTab.getD []), false)
  else if tab.type = "tests".toList ∨ tab.type = "coverage".toList ∨
      tab.type = "build".toList then
    (tab.pathname, false)
  else (none, true)

/-- The method `openTab(key)`. -/
def openTab (key : Option Str) (w : World) : Outcome :=
  match findTab w.home.openTabs key with
  | none => ⟨w, some .typeError⟩
  | some tab =>
    let r := tabPath key tab
    let w1 := if r.2 then w.emit (.consoleError tab) else w
    if some w1.docPathname ≠ r.1 then ⟨w1.push r.1, none⟩ else ⟨w1, none⟩

/-- The cleanup at the head of `doClose`, run when `files` is truthy. -/
def cleanup (f : Files) (w : World) : World :=
  { w with
    editorStateMap := deleteKey (deleteKey (deleteKey w.editorStateMap f.code) f.style) f.test
    models := modelDispose (modelDispose (modelDispose w.models f.code) f.style) f.test }

/-- The block guarded by `if (files)` at the head of `doClose`. -/
def cleanupIf (files : Option Files) (w : World) : World :=
  match files with
  | some f => cleanup f w
  | none => w

/-- The closure `doClose` of `handleClose`, over the captured `files` and `tab`. -/
def doClose (files : Option Files) (tab : Tab) (w : World) : Outcome :=
  let w1 := cleanupIf files w
  let w2 := w1.emit (.closeTab tab.key)
  let historyTabs := w2.home.historyTabs
  if historyTabs.length = 1 then ⟨w2.push (some "/welcome".toList), none⟩
  else
    match isCurrentTab w2 tab with
    | .error e => ⟨w2, some e⟩
    | .ok true => openTab (historyTabs.get? 1) w2
    | .ok false => ⟨w2, none⟩

/-- The first two statements of `handleClose`: the console line, and
`stopPropagation` when the event has one (`evt`). -/
def closeEntry (evt : Bool) (tab : Tab) (w : World) : World :=
  let w1 := w.emit (.consoleLog tab.key)
  if evt then w1.emit .stopPropagation else w1

section Handlers

-- `getElementFiles(home, key)` of `./helpers` is not among the sources: the handlers take it
-- as a parameter; `none` stands for a falsy result.
variable (getElementFiles : Home → Str → Option Files)

/-- The method `isChanged(tab)`. -/
def isChanged (w : World) (tab : Tab) : Bool :=
  match getElementFiles w.home tab.key with
  | none => false
  | some files =>
    modelIsChanged w.models files.code || modelIsChanged w.models files.test ||
      modelIsChanged w.models files.style

/-- The prompt `handleClose` hands to `Modal.confirm`. -/
def discardPrompt (files : Files) (tab : Tab) : Prompt :=
  { title := "Discard changes?".toList
    content := "Do you want to discard changes you made to ".toList ++ files.code ++ "?".toList
    okText := "Discard".toList
    files := files
    tab := tab }

/-- The method `handleClose(evt, tab)`; `evt` tells whether the event has a `stopPropagation`.
A prompt shown by `Modal.confirm` stays in the trace; the user answers it later
through `Prompt.onOk` or `Prompt.onCancel`. -/
def handleClose (evt : Bool) (tab : Tab) (w : World) : Outcome :=
  let w2 := closeEntry evt tab w
  let files := getElementFiles w2.home tab.key
  match files with
  | some f =>
    if [f.code, f.test, f.style].any (fun x => modelIsChanged w2.models x) then
      ⟨w2.emit (.confirm (discardPrompt f tab)), none⟩
    else doClose files tab w2
  | none => doClose files tab w2

end Handlers

/-- The `onOk` callback of a prompt: `doClose()`. -/
def Prompt.onOk (p : Prompt) (w : World) : Outcome :=
  doClose (some p.files) p.tab w

/-- The `onCancel` callback of a prompt: the empty function. -/
def Prompt.onCancel (_p : Prompt) (w : World) : Outcome :=
  ⟨w, none⟩

/-! ## The batch menu -/

/-- The position of the first tab whose key is `key`, if there is one. -/
def indexOfKey : List Tab → Str → Option Nat
  | [], _ => none
  | t :: ts, key => if t.key == key then some 0 else (indexOfKey ts key).map (· + 1)

/-- Lodash `_.findIndex` over `openTabs` by `key`: the index of the first tab
whose key is `key`, and `-1` when no tab has it. -/
def findIndex (openTabs : List Tab) (key : Str) : Int :=
  match indexOfKey openTabs key with
  | some i => i
  | none => -1

/-- The call `arr.slice(start)`: the elements from `start` on; a negative `start`
counts from the end. -/
def slice (arr : List Tab) (start : Int) : List Tab :=
  if start < 0 then arr.drop (arr.length - start.natAbs) else arr.drop start.toNat

/-- The lines `console.log('close tab: ', tab.key)` of a trace, oldest first: one
for every call of `handleClose`, which logs before anything else. -/
def closeLogs (t : List Effect) : List Str :=
  t.filterMap (fun e => match e with | .consoleLog k => some k | _ => none)

/-- Modelled from the spec: what the store makes of `closeTab(key)` requests, which
is not among the sources: "removal of the tab from the store's open-tabs
sequence", for every requested key. -/
def removeClosed (openTabs : List Tab) (keys : List Str) : List Tab :=
  openTabs.filter (fun t => !keys.contains t.key)

section Menu

variable (getElementFiles : Home → Str → Option Files)

/-- The loop `tabs.forEach(t => this.handleClose(evt, t))` with the empty object
as `evt`, which has no `stopPropagation`: one call after the other, each on the
world the call before left; an exception ends the loop. -/
def closeEach : List Tab → World → Outcome
  | [], w => ⟨w, none⟩
  | t :: ts, w =>
    match handleClose getElementFiles false t w with
    | ⟨w1, none⟩ => closeEach ts w1
    | ⟨w1, some e⟩ => ⟨w1, some e⟩

/-- The method `handleMenuClick(tab, menuKey)`. -/
def handleMenuClick (tab : Tab) (menuKey : Str) (w : World) : Outcome :=
  let openTabs := w.home.openTabs
  if menuKey = "close-others".toList then
    closeEach getElementFiles (openTabs.filter (fun t => t.key != tab.key)) w
  else if menuKey = "close-right".toList then
    closeEach getElementFiles (slice openTabs (findIndex openTabs tab.key + 1)) w
  else if menuKey = "close-self".toList then handleClose getElementFiles false tab w
  else ⟨w, none⟩

end Menu

/-! ## Element data -/

/-- The value of `ele.feature && /^(js|jsx)$/.test(ext)`: a falsy `feature` itself
(`undefined` or the empty string), or else the result of the test. -/
inductive TestFlag where
  | falsy (feature : Option Str)
  | bool (b : Bool)
  deriving DecidableEq

/-- What `getElementData` returns for a catalog entry: the entry, spread, and the
four flags. -/
structure ElementData where
  ele : Element
  hasDiagram : Bool
  hasTest : TestFlag
  hasCode : Bool
  isPic : Bool
  deriving DecidableEq

/-- The extension of `getElementData`: `fullPath.split('.')`, then the last piece
when there are at least two, and `null` (`none`) otherwise. -/
def extensionOf (fullPath : Str) : Option Str :=
  let arr := split '.' fullPath
  if arr.length > 1 then arr.getLast? else none

/-- The test `/^(a|b|...)$/.test(ext)` of a regular expression that lists whole
words, without the `i` flag: `ext` is one of the words, letter for letter.  A
`null` extension is tested as the string `null`. -/
def regexTest (words : List String) (ext : Option Str) : Bool :=
  (words.map String.toList).contains (ext.getD "null".toList)

/-- The words of `/^(js|jsx)$/`. -/
def scriptWords : List String :=
  ["js", "jsx"]

/-- The words of `/^(js|jsx|html|css|less|scss|txt|json|sass|md|log|pl|py|sh|cmd)$/`. -/
def codeWords : List String :=
  ["js", "jsx", "html", "css", "less", "scss", "txt", "json", "sass", "md", "log", "pl", "py",
    "sh", "cmd"]

/-- The words of `/^(jpe?g|png|gif|bmp)$/`. -/
def picWords : List String :=
  ["jpg", "jpeg", "png", "gif", "bmp"]

/-- The value of `ele.feature && /^(js|jsx)$/.test(ext)`. -/
def hasTestOf (feature : Option Str) (ext : Option Str) : TestFlag :=
  match feature with
  | none => .falsy none
  | some f => if f.isEmpty then .falsy (some f) else .bool (regexTest scriptWords ext)

/-- The object `getElementData` builds for the entry `ele` and the extension `ext`. -/
def elementData (ele : Element) (ext : Option Str) : ElementData :=
  { ele := ele
    hasDiagram := regexTest scriptWords ext
    hasTest := hasTestOf ele.feature ext
    hasCode := regexTest codeWords ext
    isPic := regexTest picWords ext }

/-- The method `getElementData(file)`, on `props.home`; `none` is `null`.  The
catalog `elementById` is read by its own keys. -/
def getElementData (home : Home) (file : JsVal) : Except JsError (Option ElementData) :=
  match file with
  | .undefined => .ok none
  | .null => .ok none
  | .str f =>
    if f.isEmpty then .ok none
    else
      match decodeURIComponent f with
      | .error e => .error e
      | .ok decoded =>
        let fullPath := home.projectRoot ++ decoded
        let ext := extensionOf fullPath
        match home.elementById.lookup decoded with
        | none => .ok none
        | some ele => .ok (some (elementData ele ext))

/-- A run `o` from the world `w` ended normally and pushed `path` exactly when
`path` differs from `document.location.pathname`, and pushed nothing else. -/
def PushedIffDiffers (w : World) (o : Outcome) (path : Option Str) : Prop :=
  o.error = none ∧
    pushes o.world.trace = pushes w.trace ++ (if some w.docPathname = path then [] else [path])

/-! ## Example tabs and worlds -/

/-- A tab with the given key and type, and nothing optional. -/
def mkTab (key type : String) : Tab :=
  { key := key.toList, type := type.toList, name := key.toList, icon := none, subTab := none,
    pathname := none }

/-- A world at the pathname `path` (router and document alike) with the given
open tabs and history, empty caches and an empty trace. -/
def mkWorld (path : String) (openTabs : List Tab) (history : List String) : World :=
  { home := { openTabs := openTabs, historyTabs := history.map String.toList, elementById := [],
              projectRoot := "/proj/".toList }
    routerPathname := path.toList
    docPathname := path.toList
    editorStateMap := []
    models := []
    trace := [] }

/-- An element tab for the file `src/a.js`, showing its `code` sub-view. -/
def fileTab : Tab :=
  { mkTab "src/a.js" "element" with subTab := some "code".toList }

/-- The home tab. -/
def homeTab : Tab :=
  mkTab "#home" "home"

/-- A tab of a type the component does not know. -/
def oddTab : Tab :=
  mkTab "#deps" "deps"

/-- No tab key resolves to files. -/
def noFiles : Home → Str → Option Files :=
  fun _ _ => none

/-- The buffers of `src/a.js`. -/
def aFiles : Files :=
  { code := "src/a.js".toList, test := "tests/a.test.js".toList, style := "src/a.less".toList }

/-- Only the key `src/a.js` resolves to files. -/
def filesOfA : Home → Str → Option Files :=
  fun _ key => if key = "src/a.js".toList then some aFiles else none

/-- A routes tab. -/
def routesTab : Tab :=
  mkTab "rekit-cmds" "routes"

/-- The location is at the element `src/a.js`, whose code buffer has unsaved
changes and a cached editor state; the history is `src/a.js`, `rekit-cmds`, `#home`. -/
def dirtyWorld : World :=
  { mkWorld "/element/src%2Fa.js/code" [homeTab, fileTab, routesTab]
      ["src/a.js", "rekit-cmds", "#home"] with
    editorStateMap := [("src/a.js".toList, 7)]
    models := [("src/a.js".toList, true), ("tests/a.test.js".toList, false)] }

/-- Four element tabs `a.js`, `b.js`, `c.js`, `d.js`. -/
def tabA : Tab := { mkTab "a.js" "element" with subTab := some "code".toList }

/-- The second of the four tabs. -/
def tabB : Tab := { mkTab "b.js" "element" with subTab := some "code".toList }

/-- The third of the four tabs. -/
def tabC : Tab := { mkTab "c.js" "element" with subTab := some "code".toList }

/-- The fourth of the four tabs. -/
def tabD : Tab := { mkTab "d.js" "element" with subTab := some "code".toList }

/-- The four tabs are open, the location is at `c.js`, and the history is
`c.js`, `b.js`, `a.js`, `d.js`. -/
def fourTabs : World :=
  mkWorld "/element/c.js/code" [tabA, tabB, tabC, tabD] ["c.js", "b.js", "a.js", "d.js"]

/-- A catalog entry of the feature `home`. -/
def homeEntry : Element :=
  { name := "file".toList, feature := some "home".toList }

/-- A store slice whose catalog holds `homeEntry` under the keys `file.js`,
`file.JS`, `FILE.JS` and `src/a.js`. -/
def catalogHome : Home :=
  { openTabs := [], historyTabs := []
    elementById := [("file.js".toList, homeEntry), ("file.JS".toList, homeEntry),
      ("FILE.JS".toList, homeEntry), ("src/a.js".toList, homeEntry)]
    projectRoot := "/proj/".toList }

/-- An element tab whose sub-view is the string `%`. -/
def percentTab : Tab :=
  { mkTab "src/a.js" "element" with subTab := some "%".toList }

/-- A tests tab whose precomputed path is `/welcome`. -/
def welcomeTab : Tab :=
  { mkTab "#tests" "tests" with pathname := some "/welcome".toList }

/-- The four tabs are open with the history `c.js`, `b.js`, `a.js`, `d.js`, and the
location is `/element/c.js/%`, whose last segment does not URL-decode. -/
def fourTabsPercent : World :=
  mkWorld "/element/c.js/%" [tabA, tabB, tabC, tabD] ["c.js", "b.js", "a.js", "d.js"]

/-! ## Basic facts -/

theorem pushes_append (s t : List Effect) : pushes (s ++ t) = pushes s ++ pushes t := by
  simp [pushes, List.filterMap_append]

theorem closeRequests_append (s t : List Effect) :
    closeRequests (s ++ t) = closeRequests s ++ closeRequests t := by
  simp [closeRequests, List.filterMap_append]

theorem prompts_append (s t : List Effect) : prompts (s ++ t) = prompts s ++ prompts t := by
  simp [prompts, List.filterMap_append]

@[simp]
theorem emit_home (w : World) (e : Effect) : (w.emit e).home = w.home := rfl

@[simp]
theorem emit_routerPathname (w : World) (e : Effect) :
    (w.emit e).routerPathname = w.routerPathname := rfl

@[simp]
theorem emit_docPathname (w : World) (e : Effect) :
    (w.emit e).docPathname = w.docPathname := rfl

@[simp]
theorem emit_editorStateMap (w : World) (e : Effect) :
    (w.emit e).editorStateMap = w.editorStateMap := rfl

@[simp]
theorem emit_models (w : World) (e : Effect) : (w.emit e).models = w.models := rfl

@[simp]
theorem emit_trace (w : World) (e : Effect) : (w.emit e).trace = w.trace ++ [e] := rfl

@[simp]
theorem push_home (w : World) (p : Option Str) : (w.push p).home = w.home := by
  cases p <;> rfl

@[simp]
theorem push_editorStateMap (w : World) (p : Option Str) :
    (w.push p).editorStateMap = w.editorStateMap := by
  cases p <;> rfl

@[simp]
theorem push_models (w : World) (p : Option Str) : (w.push p).models = w.models := by
  cases p <;> rfl

@[simp]
theorem push_trace (w : World) (p : Option Str) :
    (w.push p).trace = w.trace ++ [.push p] := by
  cases p <;> rfl

@[simp]
theorem push_some_docPathname (w : World) (p : Str) :
    (w.push (some p)).docPathname = p := rfl

@[simp]
theorem push_some_routerPathname (w : World) (p : Str) :
    (w.push (some p)).routerPathname = p := rfl

@[simp]
theorem cleanupIf_home (f : Option Files) (w : World) :
    (cleanupIf f w).home = w.home := by
  cases f <;> rfl

@[simp]
theorem cleanupIf_routerPathname (f : Option Files) (w : World) :
    (cleanupIf f w).routerPathname = w.routerPathname := by
  cases f <;> rfl

@[simp]
theorem cleanupIf_docPathname (f : Option Files) (w : World) :
    (cleanupIf f w).docPathname = w.docPathname := by
  cases f <;> rfl

@[simp]
theorem cleanupIf_trace (f : Option Files) (w : World) :
    (cleanupIf f w).trace = w.trace := by
  cases f <;> rfl

@[simp]
theorem closeEntry_home (evt : Bool) (tab : Tab) (w : World) :
    (closeEntry evt tab w).home = w.home := by
  cases evt <;> rfl

@[simp]
theorem closeEntry_routerPathname (evt : Bool) (tab : Tab) (w : World) :
    (closeEntry evt tab w).routerPathname = w.routerPathname := by
  cases evt <;> rfl

@[simp]
theorem closeEntry_docPathname (evt : Bool) (tab : Tab) (w : World) :
    (closeEntry evt tab w).docPathname = w.docPathname := by
  cases evt <;> rfl

@[simp]
theorem closeEntry_editorStateMap (evt : Bool) (tab : Tab) (w : World) :
    (closeEntry evt tab w).editorStateMap = w.editorStateMap := by
  cases evt <;> rfl

@[simp]
theorem closeEntry_models (evt : Bool) (tab : Tab) (w : World) :
    (closeEntry evt tab w).models = w.models := by
  cases evt <;> rfl

theorem closeEntry_trace (evt : Bool) (tab : Tab) (w : World) :
    (closeEntry evt tab w).trace =
      w.trace ++ (.consoleLog tab.key :: if evt then [.stopPropagation] else []) := by
  cases evt <;> simp [closeEntry]

@[simp]
theorem pushes_closeEntry (evt : Bool) (tab : Tab) (w : World) :
    pushes (closeEntry evt tab w).trace = pushes w.trace := by
  rw [closeEntry_trace, pushes_append]
  cases evt <;> simp <;> rfl

@[simp]
theorem closeRequests_closeEntry (evt : Bool) (tab : Tab) (w : World) :
    closeRequests (closeEntry evt tab w).trace = closeRequests w.trace := by
  rw [closeEntry_trace, closeRequests_append]
  cases evt <;> simp <;> rfl

@[simp]
theorem prompts_closeEntry (evt : Bool) (tab : Tab) (w : World) :
    prompts (closeEntry evt tab w).trace = prompts w.trace := by
  rw [closeEntry_trace, prompts_append]
  cases evt <;> simp <;> rfl

@[simp]
theorem cleanup_home (f : Files) (w : World) : (cleanup f w).home = w.home := rfl

@[simp]
theorem cleanup_routerPathname (f : Files) (w : World) :
    (cleanup f w).routerPathname = w.routerPathname := rfl

@[simp]
theorem cleanup_docPathname (f : Files) (w : World) :
    (cleanup f w).docPathname = w.docPathname := rfl

@[simp]
theorem cleanup_trace (f : Files) (w : World) : (cleanup f w).trace = w.trace := rfl

@[simp]
theorem pushes_nil : pushes [] = [] := rfl

@[simp]
theorem pushes_cons_push (p : Option Str) (t : List Effect) :
    pushes ((.push p) :: t) = p :: pushes t := rfl

@[simp]
theorem pushes_cons_consoleLog (k : Str) (t : List Effect) :
    pushes ((.consoleLog k) :: t) = pushes t := rfl

@[simp]
theorem pushes_cons_consoleError (b : Tab) (t : List Effect) :
    pushes ((.consoleError b) :: t) = pushes t := rfl

@[simp]
theorem pushes_cons_stopPropagation (t : List Effect) :
    pushes (.stopPropagation :: t) = pushes t := rfl

@[simp]
theorem pushes_cons_closeTab (k : Str) (t : List Effect) :
    pushes ((.closeTab k) :: t) = pushes t := rfl

@[simp]
theorem pushes_cons_confirm (q : Prompt) (t : List Effect) :
    pushes ((.confirm q) :: t) = pushes t := rfl

@[simp]
theorem closeRequests_nil : closeRequests [] = [] := rfl

@[simp]
theorem closeRequests_cons_push (p : Option Str) (t : List Effect) :
    closeRequests ((.push p) :: t) = closeRequests t := rfl

@[simp]
theorem closeRequests_cons_consoleLog (k : Str) (t : List Effect) :
    closeRequests ((.consoleLog k) :: t) = closeRequests t := rfl

@[simp]
theorem closeRequests_cons_consoleError (b : Tab) (t : List Effect) :
    closeRequests ((.consoleError b) :: t) = closeRequests t := rfl

@[simp]
theorem closeRequests_cons_stopPropagation (t : List Effect) :
    closeRequests (.stopPropagation :: t) = closeRequests t := rfl

@[simp]
theorem closeRequests_cons_closeTab (k : Str) (t : List Effect) :
    closeRequests ((.closeTab k) :: t) = k :: closeRequests t := rfl

@[simp]
theorem closeRequests_cons_confirm (q : Prompt) (t : List Effect) :
    closeRequests ((.confirm q) :: t) = closeRequests t := rfl

@[simp]
theorem prompts_nil : prompts [] = [] := rfl

@[simp]
theorem prompts_cons_push (p : Option Str) (t : List Effect) :
    prompts ((.push p) :: t) = prompts t := rfl

@[simp]
theorem prompts_cons_consoleLog (k : Str) (t : List Effect) :
    prompts ((.consoleLog k) :: t) = prompts t := rfl

@[simp]
theorem prompts_cons_consoleError (b : Tab) (t : List Effect) :
    prompts ((.consoleError b) :: t) = prompts t := rfl

@[simp]
theorem prompts_cons_stopPropagation (t : List Effect) :
    prompts (.stopPropagation :: t) = prompts t := rfl

@[simp]
theorem prompts_cons_closeTab (k : Str) (t : List Effect) :
    prompts ((.closeTab k) :: t) = prompts t := rfl

@[simp]
theorem prompts_cons_confirm (q : Prompt) (t : List Effect) :
    prompts ((.confirm q) :: t) = q :: prompts t := rfl

theorem startsWith_eq_decide (s target : Str) :
    startsWith s target = decide (target <+: s) := by
  rw [Bool.eq_iff_iff]
  simp [startsWith]

theorem beq_eq_decide_str (a b : Str) : (a == b) = decide (a = b) := by
  rw [Bool.eq_iff_iff]
  simp

/-! ## `decodeURIComponent` undoes `encodeURIComponent` -/

theorem hexValue_hexDigit (n : Nat) (h : n < 16) : hexValue (hexDigit n) = some n := by
  interval_cases n <;> rfl

theorem parseHexOctet_escape (b : Nat) (h : b < 256) :
    parseHexOctet (hexDigit (b / 16)) (hexDigit (b % 16)) = some b := by
  have h1 : b / 16 < 16 := by omega
  have h2 : b % 16 < 16 := by omega
  rw [parseHexOctet, hexValue_hexDigit _ h1, hexValue_hexDigit _ h2]
  simp only [Option.some.injEq]
  omega

theorem contOctet_escape (b : Nat) (h : b < 256) :
    contOctet '%' (hexDigit (b / 16)) (hexDigit (b % 16)) = some b := by
  rw [contOctet, if_pos rfl, parseHexOctet_escape b h]

theorem scalar_toNat (c : Char) : scalar c.toNat = some c := by
  have hv : c.toNat < 0xD800 ∨ (0xDFFF < c.toNat ∧ c.toNat < 0x110000) := c.valid
  rw [scalar, if_pos hv, Char.ofNat_toNat]

theorem toNat_lt (c : Char) : c.toNat < 0x110000 := by
  have hv : c.toNat < 0xD800 ∨ (0xDFFF < c.toNat ∧ c.toNat < 0x110000) := c.valid
  omega

theorem decodeFrom_skip (xs rest : Str) :
    decodeFrom xs.length (xs ++ rest) = decodeFrom 0 rest := by
  induction xs with
  | nil => rfl
  | cons x xs ih => simpa [decodeFrom] using ih

theorem decode_plain (c : Char) (r : Str) (hc : c ≠ '%') :
    decodeFrom 0 (c :: r) = consChar c (decodeFrom 0 r) := by
  simp [decodeFrom, decodeStep, hc]

theorem decodeStep_one (b : Nat) (r : Str) (hb : b < 0x80) :
    decodeStep '%' (hexDigit (b / 16) :: hexDigit (b % 16) :: r) = .ok (Char.ofNat b, 2) := by
  have h := parseHexOctet_escape b (by omega)
  simp only [decodeStep, h]
  simp [hb]

theorem decodeStep_two (b0 b1 : Nat) (ch : Char) (r : Str) (h0 : 0xC0 ≤ b0) (h0u : b0 < 0xE0)
    (h1 : b1 < 256) (hv : utf8Two b0 b1 = some ch) :
    decodeStep '%' (escapeOctet b0 ++ escapeOctet b1 ++ r).tail = .ok (ch, 5) := by
  have e0 := parseHexOctet_escape b0 (by omega)
  have e1 := contOctet_escape b1 h1
  have n1 : ¬ b0 < 0x80 := by omega
  have n2 : ¬ b0 < 0xC0 := by omega
  simp only [escapeOctet, List.cons_append, List.nil_append, List.tail_cons, decodeStep, e0, e1, hv]
  simp [n1, n2, h0u]

theorem decodeStep_three (b0 b1 b2 : Nat) (ch : Char) (r : Str) (h0 : 0xE0 ≤ b0)
    (h0u : b0 < 0xF0) (h1 : b1 < 256) (h2 : b2 < 256) (hv : utf8Three b0 b1 b2 = some ch) :
    decodeStep '%' (escapeOctet b0 ++ escapeOctet b1 ++ escapeOctet b2 ++ r).tail =
      .ok (ch, 8) := by
  have e0 := parseHexOctet_escape b0 (by omega)
  have e1 := contOctet_escape b1 h1
  have e2 := contOctet_escape b2 h2
  have n1 : ¬ b0 < 0x80 := by omega
  have n2 : ¬ b0 < 0xC0 := by omega
  have n3 : ¬ b0 < 0xE0 := by omega
  simp only [escapeOctet, List.cons_append, List.nil_append, List.tail_cons, decodeStep, e0, e1,
    e2, hv]
  simp [n1, n2, n3, h0u]

theorem decodeStep_four (b0 b1 b2 b3 : Nat) (ch : Char) (r : Str) (h0 : 0xF0 ≤ b0)
    (h0u : b0 < 0xF8) (h1 : b1 < 256) (h2 : b2 < 256) (h3 : b3 < 256)
    (hv : utf8Four b0 b1 b2 b3 = some ch) :
    decodeStep '%' (escapeOctet b0 ++ escapeOctet b1 ++ escapeOctet b2 ++ escapeOctet b3 ++
      r).tail = .ok (ch, 11) := by
  have e0 := parseHexOctet_escape b0 (by omega)
  have e1 := contOctet_escape b1 h1
  have e2 := contOctet_escape b2 h2
  have e3 := contOctet_escape b3 h3
  have n1 : ¬ b0 < 0x80 := by omega
  have n2 : ¬ b0 < 0xC0 := by omega
  have n3 : ¬ b0 < 0xE0 := by omega
  have n4 : ¬ b0 < 0xF0 := by omega
  simp only [escapeOctet, List.cons_append, List.nil_append, List.tail_cons, decodeStep, e0, e1,
    e2, e3, hv]
  simp [n1, n2, n3, n4, h0u]

theorem utf8Two_octets (v : Nat) (h0 : 0x80 ≤ v) (h1 : v < 0x800) :
    utf8Two (0xC0 + v / 64) (0x80 + v % 64) = scalar v := by
  have e : (0xC0 + v / 64 - 0xC0) * 64 + (0x80 + v % 64 - 0x80) = v := by omega
  have c1 : isCont (0x80 + v % 64) = true := by
    simp only [isCont, Bool.and_eq_true, decide_eq_true_eq]; omega
  simp only [utf8Two, e, c1, Bool.true_and, decide_eq_true_eq, h0, if_true]

theorem utf8Three_octets (v : Nat) (h0 : 0x800 ≤ v) (h1 : v < 0x10000) :
    utf8Three (0xE0 + v / 4096) (0x80 + v / 64 % 64) (0x80 + v % 64) = scalar v := by
  have e : (0xE0 + v / 4096 - 0xE0) * 4096 + (0x80 + v / 64 % 64 - 0x80) * 64 +
      (0x80 + v % 64 - 0x80) = v := by omega
  have c1 : isCont (0x80 + v / 64 % 64) = true := by
    simp only [isCont, Bool.and_eq_true, decide_eq_true_eq]; omega
  have c2 : isCont (0x80 + v % 64) = true := by
    simp only [isCont, Bool.and_eq_true, decide_eq_true_eq]; omega
  simp only [utf8Three, e, c1, c2, Bool.true_and, decide_eq_true_eq, h0, if_true]

theorem utf8Four_octets (v : Nat) (h0 : 0x10000 ≤ v) (_h1 : v < 0x110000) :
    utf8Four (0xF0 + v / 262144) (0x80 + v / 4096 % 64) (0x80 + v / 64 % 64) (0x80 + v % 64) =
      scalar v := by
  have e : (0xF0 + v / 262144 - 0xF0) * 262144 + (0x80 + v / 4096 % 64 - 0x80) * 4096 +
      (0x80 + v / 64 % 64 - 0x80) * 64 + (0x80 + v % 64 - 0x80) = v := by omega
  have c1 : isCont (0x80 + v / 4096 % 64) = true := by
    simp only [isCont, Bool.and_eq_true, decide_eq_true_eq]; omega
  have c2 : isCont (0x80 + v / 64 % 64) = true := by
    simp only [isCont, Bool.and_eq_true, decide_eq_true_eq]; omega
  have c3 : isCont (0x80 + v % 64) = true := by
    simp only [isCont, Bool.and_eq_true, decide_eq_true_eq]; omega
  simp only [utf8Four, e, c1, c2, c3, Bool.true_and, decide_eq_true_eq, h0, if_true]

theorem decodeFrom_step (c ch : Char) (xs r : Str)
    (h : decodeStep c (xs ++ r) = .ok (ch, xs.length)) :
    decodeFrom 0 (c :: (xs ++ r)) = consChar ch (decodeFrom 0 r) := by
  simp only [decodeFrom, h, decodeFrom_skip]

theorem unescaped_ne_percent (c : Char) (h : isUnescaped c = true) : c ≠ '%' := by
  intro hc
  subst hc
  revert h
  decide

theorem utf8Octets_cases (c : Char) :
    (c.toNat < 0x80 ∧ utf8Octets c = [c.toNat]) ∨
    (0x80 ≤ c.toNat ∧ c.toNat < 0x800 ∧
      utf8Octets c = [0xC0 + c.toNat / 64, 0x80 + c.toNat % 64]) ∨
    (0x800 ≤ c.toNat ∧ c.toNat < 0x10000 ∧
      utf8Octets c = [0xE0 + c.toNat / 4096, 0x80 + c.toNat / 64 % 64, 0x80 + c.toNat % 64]) ∨
    (0x10000 ≤ c.toNat ∧ c.toNat < 0x110000 ∧
      utf8Octets c = [0xF0 + c.toNat / 262144, 0x80 + c.toNat / 4096 % 64,
        0x80 + c.toNat / 64 % 64, 0x80 + c.toNat % 64]) := by
  have hlt := toNat_lt c
  unfold utf8Octets
  by_cases h1 : c.toNat < 0x80
  · left; simp [h1]
  · by_cases h2 : c.toNat < 0x800
    · right; left; simp [h1, h2]; omega
    · by_cases h3 : c.toNat < 0x10000
      · right; right; left; simp [h1, h2, h3]; omega
      · right; right; right; simp [h1, h2, h3]; omega

theorem decode_encodeChar (c : Char) (r : Str) :
    decodeFrom 0 (encodeChar c ++ r) = consChar c (decodeFrom 0 r) := by
  unfold encodeChar
  by_cases hu : isUnescaped c = true
  · rw [if_pos hu]
    exact decode_plain c r (unescaped_ne_percent c hu)
  · rw [if_neg hu]
    rcases utf8Octets_cases c with ⟨h0, e⟩ | ⟨h0, h1, e⟩ | ⟨h0, h1, e⟩ | ⟨h0, h1, e⟩
    · rw [e]
      have hs := decodeStep_one c.toNat r h0
      have := decodeFrom_step '%' (Char.ofNat c.toNat)
        [hexDigit (c.toNat / 16), hexDigit (c.toNat % 16)] r hs
      rw [Char.ofNat_toNat] at this
      simpa [escapeOctet] using this
    · rw [e]
      have hv := utf8Two_octets c.toNat h0 h1
      rw [scalar_toNat] at hv
      have hs := decodeStep_two (0xC0 + c.toNat / 64) (0x80 + c.toNat % 64) c r
        (by omega) (by omega) (by omega) hv
      have := decodeFrom_step '%' c
        (escapeOctet (0xC0 + c.toNat / 64) ++ escapeOctet (0x80 + c.toNat % 64)).tail r
      simp only [escapeOctet, List.cons_append, List.nil_append, List.tail_cons,
        List.length_cons, List.length_nil] at this hs
      simpa [escapeOctet] using this hs
    · rw [e]
      have hv := utf8Three_octets c.toNat h0 h1
      rw [scalar_toNat] at hv
      have hs := decodeStep_three (0xE0 + c.toNat / 4096) (0x80 + c.toNat / 64 % 64)
        (0x80 + c.toNat % 64) c r (by omega) (by omega) (by omega) (by omega) hv
      have := decodeFrom_step '%' c
        (escapeOctet (0xE0 + c.toNat / 4096) ++ escapeOctet (0x80 + c.toNat / 64 % 64) ++
          escapeOctet (0x80 + c.toNat % 64)).tail r
      simp only [escapeOctet, List.cons_append, List.nil_append, List.tail_cons,
        List.length_cons, List.length_nil] at this hs
      simpa [escapeOctet] using this hs
    · rw [e]
      have hv := utf8Four_octets c.toNat h0 h1
      rw [scalar_toNat] at hv
      have hs := decodeStep_four (0xF0 + c.toNat / 262144) (0x80 + c.toNat / 4096 % 64)
        (0x80 + c.toNat / 64 % 64) (0x80 + c.toNat % 64) c r (by omega) (by omega) (by omega)
        (by omega) (by omega) hv
      have := decodeFrom_step '%' c
        (escapeOctet (0xF0 + c.toNat / 262144) ++ escapeOctet (0x80 + c.toNat / 4096 % 64) ++
          escapeOctet (0x80 + c.toNat / 64 % 64) ++ escapeOctet (0x80 + c.toNat % 64)).tail r
      simp only [escapeOctet, List.cons_append, List.nil_append, List.tail_cons,
        List.length_cons, List.length_nil] at this hs
      simpa [escapeOctet] using this hs

/-- Decoding undoes encoding: `decodeURIComponent(encodeURIComponent(s))` is `s`. -/
theorem decode_encode (s : Str) : decodeURIComponent (encodeURIComponent s) = .ok s := by
  unfold decodeURIComponent encodeURIComponent
  induction s with
  | nil => rfl
  | cons c s ih =>
    rw [List.flatMap_cons, decode_encodeChar, ih]
    rfl

theorem hexDigit_ne_slash (n : Nat) (h : n < 16) : hexDigit n ≠ '/' := by
  interval_cases n <;> decide

theorem escapeOctet_no_slash (b : Nat) (h : b < 256) : '/' ∉ escapeOctet b := by
  have h1 := hexDigit_ne_slash (b / 16) (by omega)
  have h2 := hexDigit_ne_slash (b % 16) (by omega)
  intro hm
  simp only [escapeOctet, List.mem_cons, List.mem_singleton, List.not_mem_nil, or_false] at hm
  rcases hm with hm | hm | hm
  · exact absurd hm (by decide)
  · exact h1 hm.symm
  · exact h2 hm.symm

theorem utf8Octets_lt (c : Char) (b : Nat) (hb : b ∈ utf8Octets c) : b < 256 := by
  rcases utf8Octets_cases c with ⟨h0, e⟩ | ⟨h0, h1, e⟩ | ⟨h0, h1, e⟩ | ⟨h0, h1, e⟩ <;>
    rw [e] at hb <;>
    simp only [List.mem_cons, List.mem_singleton, List.not_mem_nil, or_false] at hb <;>
    omega

theorem encodeChar_no_slash (c : Char) : '/' ∉ encodeChar c := by
  unfold encodeChar
  by_cases hu : isUnescaped c = true
  · rw [if_pos hu]
    intro hm
    rw [List.mem_singleton] at hm
    subst hm
    revert hu
    decide
  · rw [if_neg hu]
    intro hm
    rw [List.mem_flatMap] at hm
    obtain ⟨b, hb, hm⟩ := hm
    exact escapeOctet_no_slash b (utf8Octets_lt c b hb) hm

theorem encode_no_slash (s : Str) : '/' ∉ encodeURIComponent s := by
  unfold encodeURIComponent
  intro hm
  rw [List.mem_flatMap] at hm
  obtain ⟨c, _, hm⟩ := hm
  exact encodeChar_no_slash c hm

theorem encodeChar_ne_nil (c : Char) : encodeChar c ≠ [] := by
  unfold encodeChar
  by_cases hu : isUnescaped c = true
  · rw [if_pos hu]; simp
  · rw [if_neg hu]
    rcases utf8Octets_cases c with ⟨_, e⟩ | ⟨_, _, e⟩ | ⟨_, _, e⟩ | ⟨_, _, e⟩ <;>
      rw [e] <;> simp [escapeOctet]

theorem encode_ne_nil (s : Str) (h : s ≠ []) : encodeURIComponent s ≠ [] := by
  cases s with
  | nil => exact absurd rfl h
  | cons c s =>
    unfold encodeURIComponent
    rw [List.flatMap_cons]
    intro hnil
    exact encodeChar_ne_nil c (List.append_eq_nil.mp hnil).1

/-! ## Splitting a pathname -/

theorem split_ne_nil (sep : Char) (s : Str) : split sep s ≠ [] := by
  induction s with
  | nil => simp [split]
  | cons c cs ih =>
    unfold split
    by_cases h : c = sep
    · simp [h]
    · rw [if_neg h]
      cases hsp : split sep cs with
      | nil => exact absurd hsp ih
      | cons seg segs => simp

theorem split_append (sep : Char) (a b : Str) (h : sep ∉ a) :
    split sep (a ++ sep :: b) = a :: split sep b := by
  induction a with
  | nil => simp [split]
  | cons c cs ih =>
    have hc : c ≠ sep := fun e => h (by simp [e])
    have hcs : sep ∉ cs := fun e => h (by simp [e])
    rw [List.cons_append, split, if_neg hc, ih hcs]

theorem mapDecode_cons (x : Str) (xs : List Str) (y : Str) (ys : List Str)
    (hx : decodeURIComponent x = .ok y) (hxs : mapDecode xs = .ok ys) :
    mapDecode (x :: xs) = .ok (y :: ys) := by
  simp [mapDecode, hx, hxs]

/-- On a pathname `/element/<seg>/<s>` whose segment `seg` is not empty, has no
`/` and decodes to `k`, `getCurrentFile` returns `k`, if the segments of `s`
decode at all. -/
theorem getCurrentFile_element (w : World) (seg k s : Str) (segs : List Str)
    (hp : w.routerPathname = "/element/".toList ++ seg ++ "/".toList ++ s)
    (hne : seg ≠ []) (hslash : '/' ∉ seg) (hd : decodeURIComponent seg = .ok k)
    (hs : mapDecode (compact (split '/' s)) = .ok segs) :
    getCurrentFile w = .ok (.str k) := by
  have e1 : "/element/".toList ++ seg ++ "/".toList ++ s =
      [] ++ '/' :: ("element".toList ++ '/' :: (seg ++ '/' :: s)) := by
    simp
  have hsplit : split '/' w.routerPathname = [] :: "element".toList :: seg :: split '/' s := by
    rw [hp, e1, split_append '/' [] _ (by simp), split_append '/' _ _ (by decide),
      split_append '/' seg s hslash]
  have hseg : seg.isEmpty = false := by
    cases seg with
    | nil => exact absurd rfl hne
    | cons _ _ => rfl
  have hcompact : compact (split '/' w.routerPathname) =
      "element".toList :: seg :: compact (split '/' s) := by
    rw [hsplit]
    simp [compact, hseg]
  have hel : decodeURIComponent "element".toList = .ok "element".toList := by decide
  have hmap := mapDecode_cons _ _ _ _ hel (mapDecode_cons _ _ _ _ hd hs)
  rw [getCurrentFile, hcompact, hmap]
  rfl

/-! ## Tab matching -/

theorem isCurrentTab_element (w : World) (tab : Tab) (h : tab.type = "element".toList) :
    isCurrentTab w tab = (getCurrentFile w).map (fun v => decide (JsVal.str tab.key = v)) := by
  rw [isCurrentTab, if_neg (by rw [h]; decide), if_pos h]
  cases getCurrentFile w <;> rfl

theorem isCurrentTab_congr (w w1 : World) (tab : Tab) (hr : w1.routerPathname = w.routerPathname)
    (hd : w1.docPathname = w.docPathname) : isCurrentTab w1 tab = isCurrentTab w tab := by
  simp only [isCurrentTab, getCurrentFile, hr, hd]

/-- C1: `isCurrentTab(tab)`, type by type: `home` matches the pathname `/` only,
`element` compares `tab.key` with what `getCurrentFile` returns (and throws when
that throws), `routes` asks for the pathname to start with `/` and `tab.key`,
`tests`, `coverage` and `build` for it to start with their `/tools/...` path,
and every other type is never current. -/
theorem isCurrentTab_by_type (w : World) (tab : Tab) :
    (tab.type = "home".toList →
      isCurrentTab w tab = .ok (decide (w.docPathname = "/".toList))) ∧
    (tab.type = "element".toList →
      isCurrentTab w tab = (getCurrentFile w).map (fun v => decide (JsVal.str tab.key = v))) ∧
    (tab.type = "routes".toList →
      isCurrentTab w tab = .ok (decide (("/".toList ++ tab.key) <+: w.docPathname))) ∧
    (tab.type = "tests".toList →
      isCurrentTab w tab = .ok (decide ("/tools/tests".toList <+: w.docPathname))) ∧
    (tab.type = "coverage".toList →
      isCurrentTab w tab = .ok (decide ("/tools/coverage".toList <+: w.docPathname))) ∧
    (tab.type = "build".toList →
      isCurrentTab w tab = .ok (decide ("/tools/build".toList <+: w.docPathname))) ∧
    (tab.type ∉ ["home".toList, "element".toList, "routes".toList, "tests".toList,
        "coverage".toList, "build".toList] →
      isCurrentTab w tab = .ok false) := by
  refine ⟨?_, ?_, ?_, ?_, ?_, ?_, ?_⟩
  · intro h
    simp only [isCurrentTab, h, if_true, beq_eq_decide_str]
  · exact isCurrentTab_element w tab
  · intro h
    rw [isCurrentTab, if_neg (by rw [h]; decide), if_neg (by rw [h]; decide), if_pos h,
      startsWith_eq_decide]
  · intro h
    rw [isCurrentTab, if_neg (by rw [h]; decide), if_neg (by rw [h]; decide),
      if_neg (by rw [h]; decide), if_pos h, startsWith_eq_decide]
  · intro h
    rw [isCurrentTab, if_neg (by rw [h]; decide), if_neg (by rw [h]; decide),
      if_neg (by rw [h]; decide), if_neg (by rw [h]; decide), if_pos h, startsWith_eq_decide]
  · intro h
    rw [isCurrentTab, if_neg (by rw [h]; decide), if_neg (by rw [h]; decide),
      if_neg (by rw [h]; decide), if_neg (by rw [h]; decide), if_neg (by rw [h]; decide),
      if_pos h, startsWith_eq_decide]
  · intro h
    simp only [List.mem_cons, List.mem_singleton, not_or, List.not_mem_nil, or_false] at h
    obtain ⟨h1, h2, h3, h4, h5, h6⟩ := h
    rw [isCurrentTab, if_neg h1, if_neg h2, if_neg h3, if_neg h4, if_neg h5, if_neg h6]

/-- C1, at an instance: with the pathname `/rekit-cmds/list`, the `routes` tab
`rekit-cmds` is current and a tab of the unknown type `deps` is not. -/
theorem isCurrentTab_by_type_witness :
    isCurrentTab (mkWorld "/rekit-cmds/list" [] []) (mkTab "rekit-cmds" "routes") = .ok true ∧
    isCurrentTab (mkWorld "/rekit-cmds/list" [] []) oddTab = .ok false :=
  ⟨((isCurrentTab_by_type (mkWorld "/rekit-cmds/list" [] [])
      (mkTab "rekit-cmds" "routes")).2.2.1 rfl).trans (by decide),
   (isCurrentTab_by_type (mkWorld "/rekit-cmds/list" [] []) oddTab).2.2.2.2.2.2 (by decide)⟩

/-- C2, refuted as stated: an element tab is not current whenever the pathname
carries its key unencoded.  At `/element/src/a.js/code`, the unencoded form for
the key `src/a.js` and the sub-view `code`, `getCurrentFile` returns `src` (the
pathname is split on `/` before anything is decoded) and the element tab
`src/a.js` is not current. -/
theorem element_unencoded_key_not_current :
    fileTab.type = "element".toList ∧
    (mkWorld "/element/src/a.js/code" [fileTab] ["src/a.js"]).routerPathname =
      "/element/".toList ++ fileTab.key ++ "/".toList ++ "code".toList ∧
    getCurrentFile (mkWorld "/element/src/a.js/code" [fileTab] ["src/a.js"]) =
      .ok (.str "src".toList) ∧
    isCurrentTab (mkWorld "/element/src/a.js/code" [fileTab] ["src/a.js"]) fileTab =
      .ok false := by
  decide

/-- C2, amended: for an element tab, `isCurrentTab` is true exactly when
`getCurrentFile` returns `tab.key`.  With a non-empty key `k` and a rest `s`
whose segments decode, on the pathname `/element/<encodeURIComponent(k)>/<s>`
the tab is current iff its key is `k`; on the unencoded pathname
`/element/<k>/<s>` the same holds when `k` has no `/` and decodes to itself. -/
theorem isCurrentTab_element_forms (w : World) (tab : Tab) (k s : Str) (segs : List Str)
    (htype : tab.type = "element".toList) (hk : k ≠ [])
    (hs : mapDecode (compact (split '/' s)) = .ok segs) :
    (isCurrentTab w tab = .ok true ↔ getCurrentFile w = .ok (.str tab.key)) ∧
    (w.routerPathname = "/element/".toList ++ encodeURIComponent k ++ "/".toList ++ s →
      isCurrentTab w tab = .ok (decide (tab.key = k))) ∧
    ('/' ∉ k → decodeURIComponent k = .ok k →
      w.routerPathname = "/element/".toList ++ k ++ "/".toList ++ s →
      isCurrentTab w tab = .ok (decide (tab.key = k))) := by
  have hcur := isCurrentTab_element w tab htype
  refine ⟨?_, ?_, ?_⟩
  · rw [hcur]
    cases hg : getCurrentFile w with
    | error e => simp [Except.map]
    | ok v =>
      simp only [Except.map, Except.ok.injEq, decide_eq_true_eq]
      exact ⟨fun h => h ▸ rfl, fun h => h.symm⟩
  · intro hp
    have hg := getCurrentFile_element w (encodeURIComponent k) k s segs hp (encode_ne_nil k hk)
      (encode_no_slash k) (decode_encode k) hs
    rw [hcur, hg]
    simp [Except.map]
  · intro hslash hd hp
    have hg := getCurrentFile_element w k k s segs hp hk hslash hd hs
    rw [hcur, hg]
    simp [Except.map]

/-- C2 amended, at an instance: at `/element/src%2Fa.js/code` the tab for
`src/a.js` is current. -/
theorem isCurrentTab_element_forms_witness :
    isCurrentTab (mkWorld "/element/src%2Fa.js/code" [fileTab] ["src/a.js"]) fileTab =
      .ok true :=
  ((isCurrentTab_element_forms (mkWorld "/element/src%2Fa.js/code" [fileTab] ["src/a.js"])
      fileTab "src/a.js".toList "code".toList ["code".toList] rfl (by decide) (by decide)).2.1
    (by decide)).trans (by decide)

/-! ## Navigation -/

theorem findTab_key (tabs : List Tab) (key : Option Str) (tab : Tab)
    (h : findTab tabs key = some tab) : key = some tab.key := by
  cases key with
  | none => simp [findTab] at h
  | some k =>
    have hk := List.find?_some h
    simp only [beq_iff_eq] at hk
    rw [hk]

theorem findTab_of_mem (tabs : List Tab) (tab : Tab) (hmem : tab ∈ tabs)
    (huniq : (tabs.map Tab.key).Nodup) : findTab tabs (some tab.key) = some tab := by
  induction tabs with
  | nil => simp at hmem
  | cons t ts ih =>
    rw [List.map_cons, List.nodup_cons] at huniq
    simp only [findTab, List.find?_cons]
    by_cases ht : t.key = tab.key
    · have hb : (t.key == tab.key) = true := by simp [ht]
      rw [hb]
      rcases List.mem_cons.mp hmem with e | hin
      · rw [e]
      · exact absurd (ht ▸ List.mem_map_of_mem Tab.key hin) huniq.1
    · have hb : (t.key == tab.key) = false := by simp [ht]
      rw [hb]
      rcases List.mem_cons.mp hmem with e | hin
      · exact absurd (e ▸ rfl) ht
      · exact ih hin huniq.2

/-- What `openTab` does once the tab is found: a push of the computed path when it
differs from the current pathname, after the diagnostic of the default case. -/
theorem openTab_found (w : World) (key : Option Str) (tab : Tab)
    (h : findTab w.home.openTabs key = some tab) :
    (openTab key w).error = none ∧
    pushes (openTab key w).world.trace =
      pushes w.trace ++ (if some w.docPathname = (tabPath key tab).1 then []
        else [(tabPath key tab).1]) := by
  unfold openTab
  rw [h]
  by_cases hp : some w.docPathname = (tabPath key tab).1
  · by_cases hl : (tabPath key tab).2 = true <;>
      simp [hp, hl, pushes_append]
  · by_cases hl : (tabPath key tab).2 = true <;>
      simp [hp, hl, pushes_append]

theorem tabPath_home (key : Option Str) (tab : Tab) (h : tab.type = "home".toList) :
    tabPath key tab = (some "/".toList, false) := by
  rw [tabPath, if_pos h]

theorem tabPath_element (key : Option Str) (tab : Tab) (h : tab.type = "element".toList) :
    tabPath key tab = (some ("/element/".toList ++ encodeURIComponent (interpolate key) ++
      "/".toList ++ interpolate tab.subTab), false) := by
  rw [tabPath, if_neg (by rw [h]; decide), if_pos h]

theorem tabPath_routes (key : Option Str) (tab : Tab) (h : tab.type = "routes".toList) :
    tabPath key tab = (some ("/".toList ++ tab.key ++ "/".toList ++ tab.subTab.getD []), false) := by
  rw [tabPath, if_neg (by rw [h]; decide), if_neg (by rw [h]; decide), if_pos h]

theorem tabPath_tools (key : Option Str) (tab : Tab)
    (h : tab.type = "tests".toList ∨ tab.type = "coverage".toList ∨ tab.type = "build".toList) :
    tabPath key tab = (tab.pathname, false) := by
  have h1 : tab.type ≠ "home".toList := by rcases h with h | h | h <;> rw [h] <;> decide
  have h2 : tab.type ≠ "element".toList := by rcases h with h | h | h <;> rw [h] <;> decide
  have h3 : tab.type ≠ "routes".toList := by rcases h with h | h | h <;> rw [h] <;> decide
  rw [tabPath, if_neg h1, if_neg h2, if_neg h3, if_pos h]

theorem tabPath_unknown (key : Option Str) (tab : Tab)
    (h : tab.type ∉ ["home".toList, "element".toList, "routes".toList, "tests".toList,
        "coverage".toList, "build".toList]) :
    tabPath key tab = (none, true) := by
  simp only [List.mem_cons, List.mem_singleton, not_or, List.not_mem_nil, or_false] at h
  obtain ⟨h1, h2, h3, h4, h5, h6⟩ := h
  rw [tabPath, if_neg h1, if_neg h2, if_neg h3, 
    if_neg (fun h => h.elim h4 (fun h => h.elim h5 h6))]

/-- On a tab of an unknown type `openTab` logs the tab and then calls
`history.push(undefined)`: `path` was never assigned, so it differs from the
current pathname, whatever that is. -/
theorem openTab_unknown_type (w : World) (key : Option Str) (tab : Tab)
    (hfind : findTab w.home.openTabs key = some tab)
    (h : tab.type ∉ ["home".toList, "element".toList, "routes".toList, "tests".toList,
        "coverage".toList, "build".toList]) :
    (openTab key w).world.trace = w.trace ++ [.consoleError tab, .push none] := by
  unfold openTab
  rw [hfind]
  simp [tabPath_unknown key tab h]

/-- C3, the code at a failing input: with the home tab and a tab of the unknown
type `deps` open and the location at `/`, `openTab('#deps')` logs the tab and
then pushes `undefined`: a navigation push is issued. -/
theorem openTab_unknown_type_pushes :
    (openTab (some oddTab.key) (mkWorld "/" [homeTab, oddTab] ["#home", "#deps"])).world.trace =
      [.consoleError oddTab, .push none] ∧
    pushes (openTab (some oddTab.key)
      (mkWorld "/" [homeTab, oddTab] ["#home", "#deps"])).world.trace ≠ [] := by
  decide

/-- C4: for an open tab of a recognised type (keys being unique among the open
tabs), `openTab(tab.key)` ends normally and pushes the path of its type, `/` for
`home`, `/element/<encodeURIComponent(key)>/<subTab>` for `element` (an absent
`subTab` reads `undefined`, as in the template literal), `/<key>/<subTab or ''>`
for `routes`, `tab.pathname` for `tests`, `coverage` and `build`, exactly when
that path differs from `document.location.pathname`; it pushes nothing else. -/
theorem openTab_path (w : World) (tab : Tab) (hmem : tab ∈ w.home.openTabs)
    (huniq : (w.home.openTabs.map Tab.key).Nodup) :
    (tab.type = "home".toList →
      PushedIffDiffers w (openTab (some tab.key) w) (some "/".toList)) ∧
    (tab.type = "element".toList →
      PushedIffDiffers w (openTab (some tab.key) w)
        (some ("/element/".toList ++ encodeURIComponent tab.key ++ "/".toList ++
          interpolate tab.subTab))) ∧
    (tab.type = "routes".toList →
      PushedIffDiffers w (openTab (some tab.key) w)
        (some ("/".toList ++ tab.key ++ "/".toList ++ tab.subTab.getD []))) ∧
    (tab.type = "tests".toList ∨ tab.type = "coverage".toList ∨ tab.type = "build".toList →
      PushedIffDiffers w (openTab (some tab.key) w) tab.pathname) := by
  have hfind := findTab_of_mem w.home.openTabs tab hmem huniq
  have hopen := openTab_found w (some tab.key) tab hfind
  refine ⟨?_, ?_, ?_, ?_⟩
  · intro h
    rw [tabPath_home _ tab h] at hopen
    exact hopen
  · intro h
    rw [tabPath_element _ tab h] at hopen
    exact hopen
  · intro h
    rw [tabPath_routes _ tab h] at hopen
    exact hopen
  · intro h
    rw [tabPath_tools _ tab h] at hopen
    exact hopen

/-- C4, at an instance: with the location at `/`, opening the element tab
`src/a.js` (sub-view `code`) pushes `/element/src%2Fa.js/code`, and nothing else. -/
theorem openTab_path_witness :
    pushes (openTab (some fileTab.key)
      (mkWorld "/" [homeTab, fileTab] ["#home", "src/a.js"])).world.trace =
      [some "/element/src%2Fa.js/code".toList] :=
  (((openTab_path (mkWorld "/" [homeTab, fileTab] ["#home", "src/a.js"]) fileTab
      (by decide) (by decide)).2.1 rfl).2).trans (by decide)

theorem openTab_home (w : World) (key : Option Str) : (openTab key w).world.home = w.home := by
  unfold openTab
  cases findTab w.home.openTabs key with
  | none => rfl
  | some tab =>
    by_cases hp : some w.docPathname = (tabPath key tab).1 <;>
      by_cases hl : (tabPath key tab).2 = true <;> simp [hp, hl]

theorem closeRequests_openTab (w : World) (key : Option Str) :
    closeRequests (openTab key w).world.trace = closeRequests w.trace := by
  unfold openTab
  cases findTab w.home.openTabs key with
  | none => rfl
  | some tab =>
    by_cases hp : some w.docPathname = (tabPath key tab).1 <;>
      by_cases hl : (tabPath key tab).2 = true <;> simp [hp, hl, closeRequests_append]

theorem prompts_openTab (w : World) (key : Option Str) :
    prompts (openTab key w).world.trace = prompts w.trace := by
  unfold openTab
  cases findTab w.home.openTabs key with
  | none => rfl
  | some tab =>
    by_cases hp : some w.docPathname = (tabPath key tab).1 <;>
      by_cases hl : (tabPath key tab).2 = true <;> simp [hp, hl, prompts_append]

/-- After `openTab` on a tab whose path is the string `p`, the location is `p`. -/
theorem openTab_docPathname (w : World) (key : Option Str) (tab : Tab) (p : Str)
    (hfind : findTab w.home.openTabs key = some tab) (hpath : (tabPath key tab).1 = some p) :
    (openTab key w).world.docPathname = p := by
  unfold openTab
  rw [hfind]
  by_cases hp : w.docPathname = p <;>
    by_cases hl : (tabPath key tab).2 = true <;> simp [hp, hl, hpath]

/-- C5, refuted as stated: two calls of `openTab` in a row do not always produce
exactly one push.  With the home tab open and the location at `/`, opening the
home tab twice ends normally both times and produces no push at all. -/
theorem two_opens_not_one_push :
    homeTab ∈ (mkWorld "/" [homeTab] ["#home"]).home.openTabs ∧
    (openTab (some homeTab.key) (mkWorld "/" [homeTab] ["#home"])).error = none ∧
    (openTab (some homeTab.key)
      (openTab (some homeTab.key) (mkWorld "/" [homeTab] ["#home"])).world).error = none ∧
    pushes (openTab (some homeTab.key)
      (openTab (some homeTab.key) (mkWorld "/" [homeTab] ["#home"])).world).world.trace = [] := by
  decide

/-- C5, amended: for a key whose tab has a string `p` as its path, two calls of
`openTab(key)` in a row end normally; the first pushes `p` when `p` differs from
the current pathname and nothing when it equals it, and the second pushes
nothing.  So the two produce one push when the location was elsewhere, and none
when it was already at `p`. -/
theorem openTab_twice (w : World) (key : Str) (tab : Tab) (p : Str)
    (hfind : findTab w.home.openTabs (some key) = some tab)
    (hpath : (tabPath (some key) tab).1 = some p) :
    (openTab (some key) w).error = none ∧
    (openTab (some key) (openTab (some key) w).world).error = none ∧
    pushes (openTab (some key) w).world.trace =
      pushes w.trace ++ (if w.docPathname = p then [] else [some p]) ∧
    pushes (openTab (some key) (openTab (some key) w).world).world.trace =
      pushes (openTab (some key) w).world.trace := by
  have h1 := openTab_found w (some key) tab hfind
  have hfind2 : findTab (openTab (some key) w).world.home.openTabs (some key) = some tab := by
    rw [openTab_home]
    exact hfind
  have h2 := openTab_found (openTab (some key) w).world (some key) tab hfind2
  have hdoc := openTab_docPathname w (some key) tab p hfind hpath
  rw [hpath] at h1 h2
  rw [hdoc] at h2
  refine ⟨h1.1, h2.1, ?_, ?_⟩
  · rw [h1.2]
    by_cases hp : w.docPathname = p <;> simp [hp]
  · rw [h2.2]
    simp

/-- C5 amended, at an instance: from `/`, opening the element tab `src/a.js` twice
pushes `/element/src%2Fa.js/code` once. -/
theorem openTab_twice_witness :
    pushes (openTab (some fileTab.key) (openTab (some fileTab.key)
      (mkWorld "/" [homeTab, fileTab] ["#home", "src/a.js"])).world).world.trace =
      [some "/element/src%2Fa.js/code".toList] :=
  ((openTab_twice (mkWorld "/" [homeTab, fileTab] ["#home", "src/a.js"]) fileTab.key fileTab
      "/element/src%2Fa.js/code".toList (by decide) (by decide)).2.2.2).trans (by decide)

/-! ## The close protocol -/

theorem doClose_welcome (files : Option Files) (tab : Tab) (w : World)
    (h : w.home.historyTabs.length = 1) :
    doClose files tab w =
      ⟨((cleanupIf files w).emit (.closeTab tab.key)).push (some "/welcome".toList), none⟩ := by
  simp [doClose, h]

theorem doClose_inactive (files : Option Files) (tab : Tab) (w : World)
    (h : w.home.historyTabs.length ≠ 1) (hc : isCurrentTab w tab = .ok false) :
    doClose files tab w = ⟨(cleanupIf files w).emit (.closeTab tab.key), none⟩ := by
  have hc2 : isCurrentTab ((cleanupIf files w).emit (.closeTab tab.key)) tab = .ok false := by
    rw [isCurrentTab_congr w _ tab (by simp) (by simp), hc]
  simp [doClose, h, hc2]

theorem doClose_active (files : Option Files) (tab : Tab) (w : World)
    (h : w.home.historyTabs.length ≠ 1) (hc : isCurrentTab w tab = .ok true) :
    doClose files tab w =
      openTab (w.home.historyTabs.get? 1) ((cleanupIf files w).emit (.closeTab tab.key)) := by
  have hc2 : isCurrentTab ((cleanupIf files w).emit (.closeTab tab.key)) tab = .ok true := by
    rw [isCurrentTab_congr w _ tab (by simp) (by simp), hc]
  simp [doClose, h, hc2]

theorem doClose_throws (files : Option Files) (tab : Tab) (w : World) (e : JsError)
    (h : w.home.historyTabs.length ≠ 1) (hc : isCurrentTab w tab = .error e) :
    doClose files tab w = ⟨(cleanupIf files w).emit (.closeTab tab.key), some e⟩ := by
  have hc2 : isCurrentTab ((cleanupIf files w).emit (.closeTab tab.key)) tab = .error e := by
    rw [isCurrentTab_congr w _ tab (by simp) (by simp), hc]
  simp [doClose, h, hc2]

/-- Every run of `doClose` sends the `closeTab` request, once. -/
theorem closeRequests_doClose (files : Option Files) (tab : Tab) (w : World) :
    closeRequests (doClose files tab w).world.trace = closeRequests w.trace ++ [tab.key] := by
  by_cases h : w.home.historyTabs.length = 1
  · rw [doClose_welcome files tab w h]
    simp [closeRequests_append]
  · cases hc : isCurrentTab w tab with
    | error e =>
      rw [doClose_throws files tab w e h hc]
      simp [closeRequests_append]
    | ok b =>
      cases b with
      | false =>
        rw [doClose_inactive files tab w h hc]
        simp [closeRequests_append]
      | true =>
        rw [doClose_active files tab w h hc, closeRequests_openTab]
        simp [closeRequests_append]

/-- No run of `doClose` shows a prompt. -/
theorem prompts_doClose (files : Option Files) (tab : Tab) (w : World) :
    prompts (doClose files tab w).world.trace = prompts w.trace := by
  by_cases h : w.home.historyTabs.length = 1
  · rw [doClose_welcome files tab w h]
    simp [prompts_append]
  · cases hc : isCurrentTab w tab with
    | error e =>
      rw [doClose_throws files tab w e h hc]
      simp [prompts_append]
    | ok b =>
      cases b with
      | false =>
        rw [doClose_inactive files tab w h hc]
        simp [prompts_append]
      | true =>
        rw [doClose_active files tab w h hc, prompts_openTab]
        simp [prompts_append]

section HandlerFacts

variable (getElementFiles : Home → Str → Option Files)

theorem isChanged_iff (w : World) (tab : Tab) :
    isChanged getElementFiles w tab = true ↔
      ∃ f, getElementFiles w.home tab.key = some f ∧
        (modelIsChanged w.models f.code = true ∨ modelIsChanged w.models f.test = true ∨
          modelIsChanged w.models f.style = true) := by
  unfold isChanged
  cases getElementFiles w.home tab.key with
  | none => simp
  | some f => simp [or_assoc]

theorem handleClose_clean (evt : Bool) (tab : Tab) (w : World)
    (h : isChanged getElementFiles w tab = false) :
    handleClose getElementFiles evt tab w =
      doClose (getElementFiles w.home tab.key) tab (closeEntry evt tab w) := by
  unfold isChanged at h
  unfold handleClose
  simp only [closeEntry_home, closeEntry_models]
  cases hf : getElementFiles w.home tab.key with
  | none => rfl
  | some f =>
    rw [hf] at h
    have hany : ([f.code, f.test, f.style].any fun x => modelIsChanged w.models x) = false := by
      simp only [List.any_cons, List.any_nil, Bool.or_false]
      rw [← Bool.or_assoc]
      exact h
    simp [hany]

theorem handleClose_dirty (evt : Bool) (tab : Tab) (w : World) (f : Files)
    (hf : getElementFiles w.home tab.key = some f)
    (h : isChanged getElementFiles w tab = true) :
    handleClose getElementFiles evt tab w =
      ⟨(closeEntry evt tab w).emit (.confirm (discardPrompt f tab)), none⟩ := by
  unfold isChanged at h
  unfold handleClose
  simp only [closeEntry_home, closeEntry_models]
  rw [hf] at h
  have hany : ([f.code, f.test, f.style].any fun x => modelIsChanged w.models x) = true := by
    simp only [List.any_cons, List.any_nil, Bool.or_false]
    rw [← Bool.or_assoc]
    exact h
  simp [hf, hany]

end HandlerFacts

/-- C6, refuted as stated: closing a clean tab that is not the active one can
push.  With the location at `/welcome`, one open tab `src/a.js` and the history
holding that one key, the tab is not current and has no changed buffer, and
`handleClose` pushes `/welcome`: `doClose` tests `historyTabs.length === 1`
before it asks whether the tab is current. -/
theorem inactive_clean_close_can_push :
    isCurrentTab (mkWorld "/welcome" [fileTab] ["src/a.js"]) fileTab = .ok false ∧
    isChanged noFiles (mkWorld "/welcome" [fileTab] ["src/a.js"]) fileTab = false ∧
    pushes (handleClose noFiles false fileTab
      (mkWorld "/welcome" [fileTab] ["src/a.js"])).world.trace = [some "/welcome".toList] := by
  decide

/-- C6, amended: `handleClose` on a tab that is not current and has no changed
buffer ends normally and sends the `closeTab` request; when `historyTabs` does
not hold exactly one key it issues no navigation push and the location stays;
when `historyTabs` holds exactly one key it pushes `/welcome`. -/
theorem handleClose_inactive_clean (getElementFiles : Home → Str → Option Files) (evt : Bool)
    (w : World) (tab : Tab) (hcur : isCurrentTab w tab = .ok false)
    (hclean : isChanged getElementFiles w tab = false) :
    (handleClose getElementFiles evt tab w).error = none ∧
    closeRequests (handleClose getElementFiles evt tab w).world.trace =
      closeRequests w.trace ++ [tab.key] ∧
    (w.home.historyTabs.length ≠ 1 →
      pushes (handleClose getElementFiles evt tab w).world.trace = pushes w.trace ∧
      (handleClose getElementFiles evt tab w).world.docPathname = w.docPathname) ∧
    (w.home.historyTabs.length = 1 →
      pushes (handleClose getElementFiles evt tab w).world.trace =
        pushes w.trace ++ [some "/welcome".toList]) := by
  have hcur2 : isCurrentTab (closeEntry evt tab w) tab = .ok false := by
    rw [isCurrentTab_congr w _ tab (by simp) (by simp), hcur]
  rw [handleClose_clean getElementFiles evt tab w hclean]
  by_cases hlen : w.home.historyTabs.length = 1
  · rw [doClose_welcome _ tab _ (by simpa using hlen)]
    simp [pushes_append, closeRequests_append, hlen]
  · rw [doClose_inactive _ tab _ (by simpa using hlen) hcur2]
    simp [pushes_append, closeRequests_append, hlen]

/-- C6 amended, at an instance: at `/element/src%2Fa.js/code`, with a history of
three keys, closing the routes tab `rekit-cmds` (not current, no files) pushes
nothing. -/
theorem handleClose_inactive_clean_witness :
    pushes (handleClose noFiles false routesTab
      (mkWorld "/element/src%2Fa.js/code" [homeTab, fileTab, routesTab]
        ["src/a.js", "rekit-cmds", "#home"])).world.trace = [] :=
  ((handleClose_inactive_clean noFiles false
    (mkWorld "/element/src%2Fa.js/code" [homeTab, fileTab, routesTab]
      ["src/a.js", "rekit-cmds", "#home"]) routesTab (by decide) (by decide)).2.2.1
    (by decide)).1

/-- C7, refuted as stated: one open tab does not make the close push `/welcome`.
With `src/a.js` the only open tab, a history of two keys and the location at
`/welcome`, the close of the clean tab `src/a.js` runs to completion (it ends
normally and sends the `closeTab` request) and pushes nothing: `doClose` looks
at `historyTabs.length`, not at the open tabs. -/
theorem close_only_tab_without_push :
    (mkWorld "/welcome" [fileTab] ["src/a.js", "rekit-cmds"]).home.openTabs = [fileTab] ∧
    isChanged noFiles (mkWorld "/welcome" [fileTab] ["src/a.js", "rekit-cmds"]) fileTab =
      false ∧
    (handleClose noFiles false fileTab
      (mkWorld "/welcome" [fileTab] ["src/a.js", "rekit-cmds"])).error = none ∧
    closeRequests (handleClose noFiles false fileTab
      (mkWorld "/welcome" [fileTab] ["src/a.js", "rekit-cmds"])).world.trace =
      ["src/a.js".toList] ∧
    pushes (handleClose noFiles false fileTab
      (mkWorld "/welcome" [fileTab] ["src/a.js", "rekit-cmds"])).world.trace = [] := by
  decide

/-- C7, amended: when `historyTabs` holds exactly one key, a close of a tab `t`
that runs to completion pushes `/welcome`, and nothing else: `handleClose`
itself when `t` is clean, the `onOk` of the prompt it showed when `t` is dirty. -/
theorem close_last_history_pushes_welcome (getElementFiles : Home → Str → Option Files)
    (evt : Bool) (w : World) (t : Tab) (hlen : w.home.historyTabs.length = 1) :
    (isChanged getElementFiles w t = false →
      (handleClose getElementFiles evt t w).error = none ∧
      pushes (handleClose getElementFiles evt t w).world.trace =
        pushes w.trace ++ [some "/welcome".toList]) ∧
    (∀ f, getElementFiles w.home t.key = some f → isChanged getElementFiles w t = true →
      prompts (handleClose getElementFiles evt t w).world.trace =
        prompts w.trace ++ [discardPrompt f t] ∧
      pushes (handleClose getElementFiles evt t w).world.trace = pushes w.trace ∧
      ((discardPrompt f t).onOk (handleClose getElementFiles evt t w).world).error = none ∧
      pushes ((discardPrompt f t).onOk (handleClose getElementFiles evt t w).world).world.trace =
        pushes w.trace ++ [some "/welcome".toList]) := by
  refine ⟨?_, ?_⟩
  · intro hclean
    rw [handleClose_clean getElementFiles evt t w hclean,
      doClose_welcome _ t _ (by simpa using hlen)]
    simp [pushes_append]
  · intro f hf hdirty
    rw [handleClose_dirty getElementFiles evt t w f hf hdirty]
    simp only [Prompt.onOk]
    rw [doClose_welcome _ _ _ (by simpa using hlen)]
    simp [pushes_append, prompts_append, discardPrompt]

/-- C7 amended, at an instance: `src/a.js` is the only key of the history and its
code buffer is changed; `handleClose` prompts, and the `onOk` of the prompt
pushes `/welcome`. -/
theorem close_last_history_pushes_welcome_witness :
    pushes ((discardPrompt aFiles fileTab).onOk
      (handleClose filesOfA true fileTab
        { mkWorld "/element/src%2Fa.js/code" [fileTab] ["src/a.js"] with
          models := [("src/a.js".toList, true)] }).world).world.trace =
      [some "/welcome".toList] :=
  ((close_last_history_pushes_welcome filesOfA true
    { mkWorld "/element/src%2Fa.js/code" [fileTab] ["src/a.js"] with
      models := [("src/a.js".toList, true)] } fileTab rfl).2 aFiles (by decide)
    (by decide)).2.2.2

/-- C8, refuted as stated: a current tab and a history of two keys do not make the
close navigate to the tab of `historyTabs[1]` without a push of `/welcome`.
When the second key of the history is the key of no open tab, the close of
the current tab `src/a.js` throws a `TypeError` in `openTab`, pushes nothing and
leaves the location where it was; when it is the key of a tab whose path is
`/welcome`, the close pushes `/welcome`. -/
theorem close_active_can_throw_or_push_welcome :
    isCurrentTab (mkWorld "/element/src%2Fa.js/code" [homeTab, fileTab] ["src/a.js", "gone"])
      fileTab = .ok true ∧
    (doClose none fileTab (mkWorld "/element/src%2Fa.js/code" [homeTab, fileTab]
      ["src/a.js", "gone"])).error = some .typeError ∧
    pushes (doClose none fileTab (mkWorld "/element/src%2Fa.js/code" [homeTab, fileTab]
      ["src/a.js", "gone"])).world.trace = [] ∧
    (doClose none fileTab (mkWorld "/element/src%2Fa.js/code" [homeTab, fileTab]
      ["src/a.js", "gone"])).world.docPathname = "/element/src%2Fa.js/code".toList ∧
    isCurrentTab (mkWorld "/element/src%2Fa.js/code" [fileTab, welcomeTab]
      ["src/a.js", "#tests"]) fileTab = .ok true ∧
    pushes (doClose none fileTab (mkWorld "/element/src%2Fa.js/code" [fileTab, welcomeTab]
      ["src/a.js", "#tests"])).world.trace = [some "/welcome".toList] := by
  decide

/-- C8, amended: when the closed tab is current and `historyTabs` has at least two
keys, of which the second is the key of the open tab `b` with the string `p` as its
path, a completed close is `openTab(historyTabs[1])` after the cleanup and the
`closeTab` request: it ends normally, the location becomes `p`, and the only
push it can issue is `p` (issued when the location was not `p` already); the
fallback push of `/welcome` is not issued, so `/welcome` is not pushed unless it
is `p` itself. -/
theorem close_active_opens_previous (files : Option Files) (tab b : Tab) (w : World) (p : Str)
    (hcur : isCurrentTab w tab = .ok true) (hlen : 2 ≤ w.home.historyTabs.length)
    (hb : findTab w.home.openTabs (w.home.historyTabs.get? 1) = some b)
    (hp : (tabPath (w.home.historyTabs.get? 1) b).1 = some p) :
    w.home.historyTabs.get? 1 = some b.key ∧
    doClose files tab w =
      openTab (w.home.historyTabs.get? 1) ((cleanupIf files w).emit (.closeTab tab.key)) ∧
    (doClose files tab w).error = none ∧
    (doClose files tab w).world.docPathname = p ∧
    pushes (doClose files tab w).world.trace =
      pushes w.trace ++ (if w.docPathname = p then [] else [some p]) ∧
    (p ≠ "/welcome".toList →
      some "/welcome".toList ∉
        (pushes (doClose files tab w).world.trace).drop (pushes w.trace).length) := by
  have hne : w.home.historyTabs.length ≠ 1 := by omega
  have hact := doClose_active files tab w hne hcur
  have hb2 : findTab ((cleanupIf files w).emit (.closeTab tab.key)).home.openTabs
      (w.home.historyTabs.get? 1) = some b := by
    simpa using hb
  have hfound := openTab_found _ _ b hb2
  have hdoc := openTab_docPathname _ _ b p hb2 hp
  have hpushes : pushes (doClose files tab w).world.trace =
      pushes w.trace ++ (if w.docPathname = p then [] else [some p]) := by
    rw [hact, hfound.2, hp]
    by_cases hq : w.docPathname = p <;> simp [hq, pushes_append]
  refine ⟨findTab_key _ _ b hb, hact, ?_, ?_, hpushes, ?_⟩
  · rw [hact]
    exact hfound.1
  · rw [hact]
    exact hdoc
  · intro hw hmem
    rw [hpushes, List.drop_left] at hmem
    by_cases hq : w.docPathname = p
    · simp [hq] at hmem
    · simp only [hq, if_false, List.mem_singleton, Option.some.injEq] at hmem
      exact hw hmem.symm

/-- C8 amended, at an instance: the history is `src/a.js`, `rekit-cmds`, `#home` and the
location is at `src/a.js`; closing that tab pushes `/rekit-cmds/`, the path of
the routes tab `rekit-cmds`, and the location becomes it. -/
theorem close_active_opens_previous_witness :
    (doClose none fileTab (mkWorld "/element/src%2Fa.js/code" [homeTab, fileTab, routesTab]
      ["src/a.js", "rekit-cmds", "#home"])).world.docPathname = "/rekit-cmds/".toList ∧
    pushes (doClose none fileTab (mkWorld "/element/src%2Fa.js/code"
      [homeTab, fileTab, routesTab] ["src/a.js", "rekit-cmds", "#home"])).world.trace =
      [some "/rekit-cmds/".toList] :=
  ⟨(close_active_opens_previous none fileTab routesTab
      (mkWorld "/element/src%2Fa.js/code" [homeTab, fileTab, routesTab]
        ["src/a.js", "rekit-cmds", "#home"]) "/rekit-cmds/".toList (by decide) (by decide)
      (by decide) (by decide)).2.2.2.1,
   (close_active_opens_previous none fileTab routesTab
      (mkWorld "/element/src%2Fa.js/code" [homeTab, fileTab, routesTab]
        ["src/a.js", "rekit-cmds", "#home"]) "/rekit-cmds/".toList (by decide) (by decide)
      (by decide) (by decide)).2.2.2.2.1.trans (by decide)⟩

/-- C9: for a tab whose files resolve and have a changed buffer, `handleClose`
shows the prompt and stops; after the `onCancel` of that prompt nothing has
changed but the trace, which gained the console line, the `stopPropagation` and
the prompt: the editor-state cache, the models, the store slice, the pathnames,
the `closeTab` requests and the pushes are as before. -/
theorem handleClose_cancel (getElementFiles : Home → Str → Option Files) (evt : Bool)
    (w : World) (tab : Tab) (f : Files) (hf : getElementFiles w.home tab.key = some f)
    (hdirty : modelIsChanged w.models f.code = true ∨ modelIsChanged w.models f.test = true ∨
      modelIsChanged w.models f.style = true) :
    prompts (handleClose getElementFiles evt tab w).world.trace =
      prompts w.trace ++ [discardPrompt f tab] ∧
    ((discardPrompt f tab).onCancel (handleClose getElementFiles evt tab w).world).error = none ∧
    ((discardPrompt f tab).onCancel (handleClose getElementFiles evt tab w).world).world =
      { w with trace := w.trace ++ (.consoleLog tab.key ::
          if evt then [.stopPropagation, .confirm (discardPrompt f tab)]
          else [.confirm (discardPrompt f tab)]) } ∧
    closeRequests ((discardPrompt f tab).onCancel
      (handleClose getElementFiles evt tab w).world).world.trace = closeRequests w.trace ∧
    pushes ((discardPrompt f tab).onCancel
      (handleClose getElementFiles evt tab w).world).world.trace = pushes w.trace := by
  have hch : isChanged getElementFiles w tab = true :=
    (isChanged_iff getElementFiles w tab).mpr ⟨f, hf, hdirty⟩
  rw [handleClose_dirty getElementFiles evt tab w f hf hch]
  simp only [Prompt.onCancel]
  refine ⟨?_, trivial, ?_, ?_, ?_⟩
  · simp [prompts_append]
  · cases evt <;> simp [closeEntry, World.emit]
  · simp [closeRequests_append]
  · simp [pushes_append]

/-- C9, at an instance: in `dirtyWorld` the code buffer of `src/a.js` is changed;
after `handleClose` and a cancel the cache and the models are as before. -/
theorem handleClose_cancel_witness :
    ((discardPrompt aFiles fileTab).onCancel
      (handleClose filesOfA true fileTab dirtyWorld).world).world =
      { dirtyWorld with trace := [.consoleLog fileTab.key, .stopPropagation,
          .confirm (discardPrompt aFiles fileTab)] } :=
  (handleClose_cancel filesOfA true dirtyWorld fileTab aFiles (by decide)
    (Or.inl (by decide))).2.2.1

/-- C10: `isChanged(tab)` is true exactly when the tab's files resolve and one
of the code, test and style buffers is changed; `handleClose` shows a prompt
exactly when `isChanged(tab)` is true, and then sends no `closeTab` request;
otherwise it shows none and runs `doClose` right away, which sends the request. -/
theorem handleClose_prompt_iff_changed (getElementFiles : Home → Str → Option Files)
    (evt : Bool) (w : World) (tab : Tab) :
    (isChanged getElementFiles w tab = true ↔
      ∃ f, getElementFiles w.home tab.key = some f ∧
        (modelIsChanged w.models f.code = true ∨ modelIsChanged w.models f.test = true ∨
          modelIsChanged w.models f.style = true)) ∧
    (prompts (handleClose getElementFiles evt tab w).world.trace ≠ prompts w.trace ↔
      isChanged getElementFiles w tab = true) ∧
    (isChanged getElementFiles w tab = true →
      closeRequests (handleClose getElementFiles evt tab w).world.trace = closeRequests w.trace) ∧
    (isChanged getElementFiles w tab = false →
      handleClose getElementFiles evt tab w =
        doClose (getElementFiles w.home tab.key) tab (closeEntry evt tab w) ∧
      prompts (handleClose getElementFiles evt tab w).world.trace = prompts w.trace ∧
      closeRequests (handleClose getElementFiles evt tab w).world.trace =
        closeRequests w.trace ++ [tab.key]) := by
  have hdirty : isChanged getElementFiles w tab = true →
      ∃ f, handleClose getElementFiles evt tab w =
        ⟨(closeEntry evt tab w).emit (.confirm (discardPrompt f tab)), none⟩ := by
    intro h
    obtain ⟨f, hf, _⟩ := (isChanged_iff getElementFiles w tab).mp h
    exact ⟨f, handleClose_dirty getElementFiles evt tab w f hf h⟩
  have hclean : isChanged getElementFiles w tab = false →
      prompts (handleClose getElementFiles evt tab w).world.trace = prompts w.trace := by
    intro h
    rw [handleClose_clean getElementFiles evt tab w h, prompts_doClose]
    simp
  refine ⟨isChanged_iff getElementFiles w tab, ⟨?_, ?_⟩, ?_, ?_⟩
  · intro hne
    by_contra hc
    exact hne (hclean (by simpa using hc))
  · intro h hp
    obtain ⟨f, e⟩ := hdirty h
    rw [e] at hp
    simp [prompts_append] at hp
  · intro h
    obtain ⟨f, e⟩ := hdirty h
    rw [e]
    simp [closeRequests_append]
  · intro h
    refine ⟨handleClose_clean getElementFiles evt tab w h, hclean h, ?_⟩
    rw [handleClose_clean getElementFiles evt tab w h, closeRequests_doClose]
    simp

/-- C10, at an instance: in `dirtyWorld`, `isChanged` holds of the tab `src/a.js`
and `handleClose` sends no `closeTab` request. -/
theorem handleClose_prompt_iff_changed_witness :
    closeRequests (handleClose filesOfA true fileTab dirtyWorld).world.trace = [] :=
  (handleClose_prompt_iff_changed filesOfA true dirtyWorld fileTab).2.2.1 (by decide)

/-! ## Facts about the trace of a close -/

theorem closeLogs_append (s t : List Effect) :
    closeLogs (s ++ t) = closeLogs s ++ closeLogs t := by
  simp [closeLogs, List.filterMap_append]

@[simp]
theorem closeLogs_nil : closeLogs [] = [] := rfl

@[simp]
theorem closeLogs_cons_push (p : Option Str) (t : List Effect) :
    closeLogs ((.push p) :: t) = closeLogs t := rfl

@[simp]
theorem closeLogs_cons_consoleLog (k : Str) (t : List Effect) :
    closeLogs ((.consoleLog k) :: t) = k :: closeLogs t := rfl

@[simp]
theorem closeLogs_cons_consoleError (b : Tab) (t : List Effect) :
    closeLogs ((.consoleError b) :: t) = closeLogs t := rfl

@[simp]
theorem closeLogs_cons_stopPropagation (t : List Effect) :
    closeLogs (.stopPropagation :: t) = closeLogs t := rfl

@[simp]
theorem closeLogs_cons_closeTab (k : Str) (t : List Effect) :
    closeLogs ((.closeTab k) :: t) = closeLogs t := rfl

@[simp]
theorem closeLogs_cons_confirm (q : Prompt) (t : List Effect) :
    closeLogs ((.confirm q) :: t) = closeLogs t := rfl

theorem closeLogs_closeEntry (evt : Bool) (tab : Tab) (w : World) :
    closeLogs (closeEntry evt tab w).trace = closeLogs w.trace ++ [tab.key] := by
  rw [closeEntry_trace, closeLogs_append]
  cases evt <;> simp

theorem closeLogs_openTab (w : World) (key : Option Str) :
    closeLogs (openTab key w).world.trace = closeLogs w.trace := by
  unfold openTab
  cases findTab w.home.openTabs key with
  | none => rfl
  | some tab =>
    by_cases hp : some w.docPathname = (tabPath key tab).1 <;>
      by_cases hl : (tabPath key tab).2 = true <;> simp [hp, hl, closeLogs_append]

theorem openTab_editorStateMap (w : World) (key : Option Str) :
    (openTab key w).world.editorStateMap = w.editorStateMap := by
  unfold openTab
  cases findTab w.home.openTabs key with
  | none => rfl
  | some tab =>
    by_cases hp : some w.docPathname = (tabPath key tab).1 <;>
      by_cases hl : (tabPath key tab).2 = true <;> simp [hp, hl]

theorem openTab_models (w : World) (key : Option Str) :
    (openTab key w).world.models = w.models := by
  unfold openTab
  cases findTab w.home.openTabs key with
  | none => rfl
  | some tab =>
    by_cases hp : some w.docPathname = (tabPath key tab).1 <;>
      by_cases hl : (tabPath key tab).2 = true <;> simp [hp, hl]

/-- What a run of `doClose` leaves of the parts of the world other than the
location: the store slice as it was, the cache and the models as the cleanup
left them, and no new console line of a close. -/
theorem doClose_parts (files : Option Files) (tab : Tab) (w : World) :
    (doClose files tab w).world.home = w.home ∧
    (doClose files tab w).world.editorStateMap = (cleanupIf files w).editorStateMap ∧
    (doClose files tab w).world.models = (cleanupIf files w).models ∧
    closeLogs (doClose files tab w).world.trace = closeLogs w.trace := by
  by_cases h : w.home.historyTabs.length = 1
  · rw [doClose_welcome files tab w h]
    simp [closeLogs_append]
  · cases hc : isCurrentTab w tab with
    | error e =>
      rw [doClose_throws files tab w e h hc]
      simp [closeLogs_append]
    | ok b =>
      cases b with
      | false =>
        rw [doClose_inactive files tab w h hc]
        simp [closeLogs_append]
      | true =>
        rw [doClose_active files tab w h hc, openTab_home, openTab_editorStateMap,
          openTab_models, closeLogs_openTab]
        simp [closeLogs_append]

theorem lookup_filter_ne {β : Type} (m : List (Str × β)) (k id : Str) :
    (m.filter (fun e => e.1 != k)).lookup id = if id = k then none else m.lookup id := by
  induction m with
  | nil => simp
  | cons e rest ih =>
    obtain ⟨a, b⟩ := e
    rw [List.filter_cons]
    by_cases hak : a = k
    · have h1 : ((a, b).1 != k) = false := by simp [hak]
      rw [h1]
      simp only [Bool.false_eq_true, if_false]
      rw [ih]
      by_cases hid : id = k
      · rw [if_pos hid, if_pos hid]
      · have h2 : (id == a) = false := by rw [hak]; simpa using hid
        rw [if_neg hid, if_neg hid, List.lookup_cons, h2]
    · have h1 : ((a, b).1 != k) = true := by simpa using hak
      rw [h1]
      simp only [if_true]
      rw [List.lookup_cons, List.lookup_cons, ih]
      by_cases hia : id = a
      · have h2 : (id == a) = true := by simp [hia]
        have h3 : id ≠ k := fun h => hak (hia ▸ h)
        simp only [h2, if_neg h3]
      · have h2 : (id == a) = false := by simpa using hia
        simp only [h2]

theorem filter_ne_of_lookup_none {β : Type} (m : List (Str × β)) (k : Str)
    (h : m.lookup k = none) : m.filter (fun e => e.1 != k) = m := by
  induction m with
  | nil => rfl
  | cons e rest ih =>
    obtain ⟨a, b⟩ := e
    rw [List.lookup_cons] at h
    by_cases hka : k = a
    · have h2 : (k == a) = true := by simp [hka]
      rw [h2] at h
      exact absurd h (by simp)
    · have hne : (k == a) = false := by simpa using hka
      rw [hne] at h
      have hak : ((a, b).1 != k) = true := by simpa using Ne.symm hka
      rw [List.filter_cons, hak]
      simp only [if_true]
      rw [ih h]

theorem modelIsChanged_dispose (m : List (Str × Bool)) (k id : Str)
    (h : modelIsChanged (modelDispose m k) id = true) : modelIsChanged m id = true := by
  unfold modelIsChanged modelDispose at *
  rw [lookup_filter_ne] at h
  by_cases hid : id = k
  · simp [hid] at h
  · simpa [hid] using h

section MenuFacts

variable (getElementFiles : Home → Str → Option Files)

/-- What every call of `handleClose` does, whichever way it goes: it leaves the
store slice as it was, adds one console line of a close, and marks no buffer
changed that was not. -/
theorem handleClose_parts (evt : Bool) (tab : Tab) (w : World) :
    (handleClose getElementFiles evt tab w).world.home = w.home ∧
    closeLogs (handleClose getElementFiles evt tab w).world.trace =
      closeLogs w.trace ++ [tab.key] ∧
    (∀ id, modelIsChanged (handleClose getElementFiles evt tab w).world.models id = true →
      modelIsChanged w.models id = true) := by
  cases hch : isChanged getElementFiles w tab with
  | true =>
    obtain ⟨f, hf, _⟩ := (isChanged_iff getElementFiles w tab).mp hch
    rw [handleClose_dirty getElementFiles evt tab w f hf hch]
    refine ⟨by simp, ?_, ?_⟩
    · simp [closeLogs_append, closeLogs_closeEntry]
    · intro id h
      simpa using h
  | false =>
    rw [handleClose_clean getElementFiles evt tab w hch]
    obtain ⟨h1, _, h3, h4⟩ := doClose_parts (getElementFiles w.home tab.key) tab
      (closeEntry evt tab w)
    refine ⟨by rw [h1]; simp, by rw [h4, closeLogs_closeEntry], ?_⟩
    intro id h
    rw [h3] at h
    cases hf : getElementFiles w.home tab.key with
    | none =>
      rw [hf] at h
      simpa [cleanupIf] using h
    | some f =>
      rw [hf] at h
      simp only [cleanupIf, cleanup, closeEntry_models] at h
      exact modelIsChanged_dispose _ _ _
        (modelIsChanged_dispose _ _ _ (modelIsChanged_dispose _ _ _ h))

theorem isChanged_mono (w w1 : World) (tab : Tab) (hhome : w1.home = w.home)
    (hm : ∀ id, modelIsChanged w1.models id = true → modelIsChanged w.models id = true)
    (h : isChanged getElementFiles w tab = false) : isChanged getElementFiles w1 tab = false := by
  by_contra hc
  have hc1 : isChanged getElementFiles w1 tab = true := by simpa using hc
  obtain ⟨f, hf, hd⟩ := (isChanged_iff getElementFiles w1 tab).mp hc1
  rw [hhome] at hf
  have : isChanged getElementFiles w tab = true :=
    (isChanged_iff getElementFiles w tab).mpr
      ⟨f, hf, hd.imp (hm _) (fun h => h.imp (hm _) (hm _))⟩
  rw [h] at this
  exact absurd this (by decide)

theorem closeEach_nil (w : World) : closeEach getElementFiles [] w = ⟨w, none⟩ := rfl

theorem closeEach_cons_ok (t : Tab) (ts : List Tab) (w : World)
    (h : (handleClose getElementFiles false t w).error = none) :
    closeEach getElementFiles (t :: ts) w =
      closeEach getElementFiles ts (handleClose getElementFiles false t w).world := by
  rw [closeEach]
  cases hh : handleClose getElementFiles false t w with
  | mk w1 err =>
    rw [hh] at h
    simp only at h
    subst h
    rfl

theorem closeEach_cons_throw (t : Tab) (ts : List Tab) (w : World) (e : JsError)
    (h : (handleClose getElementFiles false t w).error = some e) :
    closeEach getElementFiles (t :: ts) w = handleClose getElementFiles false t w := by
  rw [closeEach]
  cases hh : handleClose getElementFiles false t w with
  | mk w1 err =>
    rw [hh] at h
    simp only at h
    subst h
    rfl

/-- The calls of `handleClose` a `forEach` over `ts` makes: on the tabs of `ts` in
their order, from the first one on, as far as no call throws; on all of `ts`
when the loop ends normally. -/
theorem closeLogs_closeEach (ts : List Tab) (w : World) :
    ∃ n, n ≤ ts.length ∧
      closeLogs (closeEach getElementFiles ts w).world.trace =
        closeLogs w.trace ++ (ts.take n).map Tab.key ∧
      ((closeEach getElementFiles ts w).error = none → n = ts.length) := by
  induction ts generalizing w with
  | nil => exact ⟨0, le_refl _, by simp [closeEach_nil], fun _ => rfl⟩
  | cons t ts ih =>
    obtain ⟨_, hlog, _⟩ := handleClose_parts getElementFiles false t w
    cases herr : (handleClose getElementFiles false t w).error with
    | none =>
      rw [closeEach_cons_ok getElementFiles t ts w herr]
      obtain ⟨n, hn, hl, hall⟩ := ih (handleClose getElementFiles false t w).world
      refine ⟨n + 1, by simpa using hn, ?_, ?_⟩
      · rw [hl, hlog]
        simp
      · intro h
        simpa using hall h
    | some e =>
      rw [closeEach_cons_throw getElementFiles t ts w e herr]
      refine ⟨1, by simp, ?_, ?_⟩
      · rw [hlog]
        simp
      · intro h
        rw [herr] at h
        exact absurd h (by simp)

/-- When the tabs of `ts` have no changed buffer and the loop ends normally, every
one of them gets its `closeTab` request, in order, and the store slice stays. -/
theorem closeRequests_closeEach (ts : List Tab) (w : World)
    (hclean : ∀ t ∈ ts, isChanged getElementFiles w t = false)
    (herr : (closeEach getElementFiles ts w).error = none) :
    closeRequests (closeEach getElementFiles ts w).world.trace =
      closeRequests w.trace ++ ts.map Tab.key := by
  induction ts generalizing w with
  | nil => simp [closeEach_nil]
  | cons t ts ih =>
    obtain ⟨hhome, _, hm⟩ := handleClose_parts getElementFiles false t w
    have ht := hclean t (List.mem_cons_self _ _)
    cases he : (handleClose getElementFiles false t w).error with
    | some e =>
      rw [closeEach_cons_throw getElementFiles t ts w e he, he] at herr
      exact absurd herr (by simp)
    | none =>
      rw [closeEach_cons_ok getElementFiles t ts w he] at herr ⊢
      rw [ih _ (fun u hu => isChanged_mono getElementFiles w _ u hhome hm
        (hclean u (List.mem_cons_of_mem _ hu))) herr]
      rw [handleClose_clean getElementFiles false t w ht, closeRequests_doClose]
      simp

theorem indexOfKey_append (pre post : List Tab) (x : Tab) (k : Str)
    (hpre : ∀ t ∈ pre, t.key ≠ k) (hx : x.key = k) :
    indexOfKey (pre ++ x :: post) k = some pre.length := by
  induction pre with
  | nil => simp [indexOfKey, hx]
  | cons p ps ih =>
    have hp : (p.key == k) = false := by simpa using hpre p (List.mem_cons_self _ _)
    rw [List.cons_append, indexOfKey, hp]
    simp only [Bool.false_eq_true, if_false]
    rw [ih (fun t ht => hpre t (List.mem_cons_of_mem _ ht))]
    rfl

theorem indexOfKey_none (tabs : List Tab) (k : Str) (h : ∀ t ∈ tabs, t.key ≠ k) :
    indexOfKey tabs k = none := by
  induction tabs with
  | nil => rfl
  | cons p ps ih =>
    have hp : (p.key == k) = false := by simpa using h p (List.mem_cons_self _ _)
    rw [indexOfKey, hp]
    simp only [Bool.false_eq_true, if_false]
    rw [ih (fun t ht => h t (List.mem_cons_of_mem _ ht))]
    rfl

/-- With unique keys, the slice `close-right` takes for a target in the sequence
is what stands after the target. -/
theorem slice_after_target (pre post : List Tab) (target : Tab)
    (huniq : ((pre ++ target :: post).map Tab.key).Nodup) :
    slice (pre ++ target :: post) (findIndex (pre ++ target :: post) target.key + 1) = post := by
  have hpre : ∀ t ∈ pre, t.key ≠ target.key := by
    intro t ht he
    rw [List.map_append, List.map_cons] at huniq
    have hd := (List.nodup_append.mp huniq).2.2
    exact hd (List.mem_map_of_mem Tab.key ht) (by rw [he]; exact List.mem_cons_self _ _)
  rw [findIndex, indexOfKey_append pre post target target.key hpre rfl]
  have h0 : ¬ ((pre.length : Int) + 1 < 0) := by omega
  have h1 : ((pre.length : Int) + 1).toNat = pre.length + 1 := by omega
  simp only [slice, h0, if_false, h1]
  rw [List.drop_append_eq_append_drop]
  simp

/-- With unique keys, the keys of the tabs at or before the target are not keys
of tabs after it, and removing the tabs after it leaves the rest. -/
theorem removeClosed_after_target (pre post : List Tab) (target : Tab)
    (huniq : ((pre ++ target :: post).map Tab.key).Nodup) :
    (∀ t ∈ pre ++ [target], t.key ∉ post.map Tab.key) ∧
    removeClosed (pre ++ target :: post) (post.map Tab.key) = pre ++ [target] := by
  have hsplit : pre ++ target :: post = (pre ++ [target]) ++ post := by simp
  rw [hsplit, List.map_append] at huniq
  have hd := (List.nodup_append.mp huniq).2.2
  have hfront : ∀ t ∈ pre ++ [target], t.key ∉ post.map Tab.key :=
    fun t ht hin => hd (List.mem_map_of_mem Tab.key ht) hin
  refine ⟨hfront, ?_⟩
  rw [hsplit, removeClosed, List.filter_append]
  have h1 : (pre ++ [target]).filter (fun t => !(post.map Tab.key).contains t.key) =
      pre ++ [target] := by
    rw [List.filter_eq_self]
    intro t ht
    simpa using hfront t ht
  have h2 : post.filter (fun t => !(post.map Tab.key).contains t.key) = [] := by
    rw [List.filter_eq_nil_iff]
    intro t ht
    simpa using List.mem_map_of_mem Tab.key ht
  rw [h1, h2, List.append_nil]

theorem foldl_after_throw (ts : List Tab) (o : Outcome) (e : JsError)
    (h : o.error = some e) :
    ts.foldl (fun o t => if o.error = none then handleClose getElementFiles false t o.world
      else o) o = o := by
  induction ts with
  | nil => rfl
  | cons t ts ih =>
    rw [List.foldl_cons, if_neg (by rw [h]; simp), ih]

/-- The loop `forEach` of `handleClose` over `ts`, call by call: every tab of `ts`
in turn gets `handleClose` on the world the call before left, until a call
throws; the tabs after that one get no call. -/
theorem closeEach_eq_foldl (ts : List Tab) (w : World) :
    closeEach getElementFiles ts w =
      ts.foldl (fun o t => if o.error = none then handleClose getElementFiles false t o.world
        else o) ⟨w, none⟩ := by
  induction ts generalizing w with
  | nil => rfl
  | cons t ts ih =>
    rw [List.foldl_cons, if_pos rfl]
    cases herr : (handleClose getElementFiles false t w).error with
    | none =>
      rw [closeEach_cons_ok getElementFiles t ts w herr, ih]
      congr 1
      cases hh : handleClose getElementFiles false t w with
      | mk w1 err =>
        rw [hh] at herr
        simp only at herr
        rw [herr]
    | some e =>
      rw [closeEach_cons_throw getElementFiles t ts w e herr,
        foldl_after_throw getElementFiles ts _ e herr]

/-- C11, amended: with unique keys and the target in the sequence, `pre` before it
and `post` after it, `handleMenuClick(target, 'close-right')` calls
`handleClose` on the tabs of `post` in sequence order, each on the world the
call before left, and a call that throws ends the loop: the tabs after it get
no call.  The calls made are on the first tabs of `post`, once each, on all of
`post` when the loop ends normally, and on no tab at or before the target.
When the loop ends normally and the tabs of `post` have no changed buffer the
`closeTab` requests are for `post` in order, and removing those from the open
tabs leaves `pre` and the target. -/
theorem closeRight_closes_after_target (w : World) (target : Tab) (pre post : List Tab)
    (hopen : w.home.openTabs = pre ++ target :: post)
    (huniq : (w.home.openTabs.map Tab.key).Nodup) :
    handleMenuClick getElementFiles target "close-right".toList w =
      post.foldl (fun o t => if o.error = none then handleClose getElementFiles false t o.world
        else o) ⟨w, none⟩ ∧
    (∃ n, n ≤ post.length ∧
      closeLogs (handleMenuClick getElementFiles target "close-right".toList w).world.trace =
        closeLogs w.trace ++ (post.take n).map Tab.key ∧
      ((handleMenuClick getElementFiles target "close-right".toList w).error = none →
        n = post.length)) ∧
    (∀ t ∈ pre ++ [target], t.key ∉ post.map Tab.key) ∧
    ((handleMenuClick getElementFiles target "close-right".toList w).error = none →
      (∀ t ∈ post, isChanged getElementFiles w t = false) →
      closeRequests (handleMenuClick getElementFiles target "close-right".toList w).world.trace =
        closeRequests w.trace ++ post.map Tab.key) ∧
    removeClosed w.home.openTabs (post.map Tab.key) = pre ++ [target] := by
  rw [hopen] at huniq
  have hrun : handleMenuClick getElementFiles target "close-right".toList w =
      closeEach getElementFiles post w := by
    rw [handleMenuClick, if_neg (by decide), if_pos rfl, hopen,
      slice_after_target pre post target huniq]
  have hrem := removeClosed_after_target pre post target huniq
  rw [hrun, hopen]
  exact ⟨closeEach_eq_foldl getElementFiles post w, closeLogs_closeEach getElementFiles post w,
    hrem.1, fun herr hclean => closeRequests_closeEach getElementFiles post w hclean herr,
    hrem.2⟩

/-- C19, amended: when no open tab has the target's key, `_.findIndex` gives `-1`,
the slice starts at `0`, and `handleMenuClick(target, 'close-right')` calls
`handleClose` on the open tabs in sequence order, each on the world the call
before left, and a call that throws ends the loop.  The calls made are on the
first of the open tabs, on all of them when the loop ends normally; then, when
they have no changed buffer, every one gets its `closeTab` request, in order. -/
theorem closeRight_unknown_target (w : World) (target : Tab)
    (hnot : ∀ t ∈ w.home.openTabs, t.key ≠ target.key) :
    findIndex w.home.openTabs target.key = -1 ∧
    slice w.home.openTabs (findIndex w.home.openTabs target.key + 1) = w.home.openTabs ∧
    handleMenuClick getElementFiles target "close-right".toList w =
      w.home.openTabs.foldl (fun o t => if o.error = none then
        handleClose getElementFiles false t o.world else o) ⟨w, none⟩ ∧
    (∃ n, n ≤ w.home.openTabs.length ∧
      closeLogs (handleMenuClick getElementFiles target "close-right".toList w).world.trace =
        closeLogs w.trace ++ (w.home.openTabs.take n).map Tab.key ∧
      ((handleMenuClick getElementFiles target "close-right".toList w).error = none →
        n = w.home.openTabs.length)) ∧
    ((handleMenuClick getElementFiles target "close-right".toList w).error = none →
      (∀ t ∈ w.home.openTabs, isChanged getElementFiles w t = false) →
      closeRequests (handleMenuClick getElementFiles target "close-right".toList w).world.trace =
        closeRequests w.trace ++ w.home.openTabs.map Tab.key) := by
  have hidx : findIndex w.home.openTabs target.key = -1 := by
    rw [findIndex, indexOfKey_none _ _ hnot]
  have hslice : slice w.home.openTabs (findIndex w.home.openTabs target.key + 1) =
      w.home.openTabs := by
    rw [hidx]
    simp [slice]
  have hrun : handleMenuClick getElementFiles target "close-right".toList w =
      closeEach getElementFiles w.home.openTabs w := by
    rw [handleMenuClick, if_neg (by decide), if_pos rfl, hslice]
  rw [hrun]
  exact ⟨hidx, hslice, closeEach_eq_foldl getElementFiles w.home.openTabs w,
    closeLogs_closeEach getElementFiles w.home.openTabs w,
    fun herr hclean => closeRequests_closeEach getElementFiles w.home.openTabs w hclean herr⟩

/-- C12, amended: `handleMenuClick(target, 'close-others')` calls `handleClose` on
the open tabs whose key differs from the target's, kept in sequence order, each
on the world the call before left, and a call that throws ends the loop; with
unique keys no key occurs twice among those tabs, and the target's key does not
occur.  The calls made are on the first of those tabs, on all of them when the
loop ends normally; then, when they have no changed buffer, every one gets its
`closeTab` request, in order.  The command `close-self` is `handleClose` on the
target, and any other command does nothing. -/
theorem handleMenuClick_others_self (w : World) (target : Tab)
    (huniq : (w.home.openTabs.map Tab.key).Nodup) :
    handleMenuClick getElementFiles target "close-others".toList w =
      (w.home.openTabs.filter (fun t => t.key != target.key)).foldl
        (fun o t => if o.error = none then handleClose getElementFiles false t o.world else o)
        ⟨w, none⟩ ∧
    (∀ t, t ∈ w.home.openTabs.filter (fun t => t.key != target.key) ↔
      t ∈ w.home.openTabs ∧ t.key ≠ target.key) ∧
    List.Sublist (w.home.openTabs.filter (fun t => t.key != target.key)) w.home.openTabs ∧
    ((w.home.openTabs.filter (fun t => t.key != target.key)).map Tab.key).Nodup ∧
    target.key ∉ (w.home.openTabs.filter (fun t => t.key != target.key)).map Tab.key ∧
    (∃ n, n ≤ (w.home.openTabs.filter (fun t => t.key != target.key)).length ∧
      closeLogs (handleMenuClick getElementFiles target "close-others".toList w).world.trace =
        closeLogs w.trace ++
          ((w.home.openTabs.filter (fun t => t.key != target.key)).take n).map Tab.key ∧
      ((handleMenuClick getElementFiles target "close-others".toList w).error = none →
        n = (w.home.openTabs.filter (fun t => t.key != target.key)).length)) ∧
    ((handleMenuClick getElementFiles target "close-others".toList w).error = none →
      (∀ t ∈ w.home.openTabs, isChanged getElementFiles w t = false) →
      closeRequests (handleMenuClick getElementFiles target "close-others".toList w).world.trace =
        closeRequests w.trace ++
          (w.home.openTabs.filter (fun t => t.key != target.key)).map Tab.key) ∧
    handleMenuClick getElementFiles target "close-self".toList w =
      handleClose getElementFiles false target w ∧
    closeLogs (handleMenuClick getElementFiles target "close-self".toList w).world.trace =
      closeLogs w.trace ++ [target.key] ∧
    (∀ cmd : Str, cmd ∉ ["close-others".toList, "close-right".toList, "close-self".toList] →
      handleMenuClick getElementFiles target cmd w = ⟨w, none⟩) := by
  have hrun : handleMenuClick getElementFiles target "close-others".toList w =
      closeEach getElementFiles (w.home.openTabs.filter (fun t => t.key != target.key)) w := by
    rw [handleMenuClick, if_pos rfl]
  have hself : handleMenuClick getElementFiles target "close-self".toList w =
      handleClose getElementFiles false target w := by
    rw [handleMenuClick, if_neg (by decide), if_neg (by decide), if_pos rfl]
  refine ⟨?_, ?_, List.filter_sublist _, ?_, ?_, ?_, ?_, hself, ?_, ?_⟩
  · rw [hrun]
    exact closeEach_eq_foldl getElementFiles _ w
  · intro t
    simp [List.mem_filter]
  · exact huniq.sublist ((List.filter_sublist _).map Tab.key)
  · intro hin
    obtain ⟨t, ht, hk⟩ := List.mem_map.mp hin
    have := (List.mem_filter.mp ht).2
    simp [hk] at this
  · rw [hrun]
    exact closeLogs_closeEach getElementFiles _ w
  · rw [hrun]
    intro herr hclean
    exact closeRequests_closeEach getElementFiles _ w
      (fun t ht => hclean t (List.mem_filter.mp ht).1) herr
  · rw [hself]
    exact (handleClose_parts getElementFiles false target w).2.1
  · intro cmd hcmd
    simp only [List.mem_cons, List.mem_singleton, not_or, List.not_mem_nil, or_false] at hcmd
    obtain ⟨h1, h2, h3⟩ := hcmd
    rw [handleMenuClick, if_neg h1, if_neg h2, if_neg h3]

end MenuFacts

/-- C11, refuted as stated: `close-right` does not always reach every tab after
the target.  On `a.js`, `b.js`, `c.js`, `d.js` with the target `b.js` and the
location `/element/c.js/%`, `handleClose` on `c.js` sends its `closeTab`
request and then throws a `URIError` in `isCurrentTab`; the `forEach` ends
there and `d.js`, which stands after the target, gets no call. -/
theorem closeRight_stops_at_throw :
    fourTabsPercent.home.openTabs = [tabA, tabB, tabC, tabD] ∧
    (fourTabsPercent.home.openTabs.map Tab.key).Nodup ∧
    (handleClose noFiles false tabC fourTabsPercent).error = some .uriError ∧
    (handleMenuClick noFiles tabB "close-right".toList fourTabsPercent).error =
      some .uriError ∧
    closeLogs (handleMenuClick noFiles tabB "close-right".toList fourTabsPercent).world.trace =
      ["c.js".toList] ∧
    closeRequests (handleMenuClick noFiles tabB "close-right".toList
      fourTabsPercent).world.trace = ["c.js".toList] := by
  decide

/-- C11 amended, at an instance: on `a.js`, `b.js`, `c.js`, `d.js` with the target
`b.js` and the location at `c.js`, `close-right` calls `handleClose` on `c.js`,
then on `d.js`; both get their `closeTab` request, and removing them leaves
`a.js` and `b.js`. -/
theorem closeRight_closes_after_target_witness :
    handleMenuClick noFiles tabB "close-right".toList fourTabs =
      [tabC, tabD].foldl (fun o t => if o.error = none then handleClose noFiles false t o.world
        else o) ⟨fourTabs, none⟩ ∧
    closeLogs (handleMenuClick noFiles tabB "close-right".toList fourTabs).world.trace =
      ["c.js".toList, "d.js".toList] ∧
    closeRequests (handleMenuClick noFiles tabB "close-right".toList fourTabs).world.trace =
      ["c.js".toList, "d.js".toList] ∧
    removeClosed fourTabs.home.openTabs ["c.js".toList, "d.js".toList] = [tabA, tabB] :=
  ⟨(closeRight_closes_after_target noFiles fourTabs tabB [tabA] [tabC, tabD] rfl
      (by decide)).1,
    by decide,
    ((closeRight_closes_after_target noFiles fourTabs tabB [tabA] [tabC, tabD] rfl
      (by decide)).2.2.2.1 (by decide) (by decide)).trans (by decide),
    (closeRight_closes_after_target noFiles fourTabs tabB [tabA] [tabC, tabD] rfl
      (by decide)).2.2.2.2⟩

/-- C19, refuted as stated: `close-right` for a target that is not open does not
always reach every open tab.  On the four tabs at the location
`/element/c.js/%`, `handleClose` on `a.js` throws a `URIError`, and `b.js`,
`c.js` and `d.js` get no call. -/
theorem closeRight_unknown_target_stops_at_throw :
    (∀ t ∈ fourTabsPercent.home.openTabs, t.key ≠ (mkTab "zz.js" "element").key) ∧
    (handleMenuClick noFiles (mkTab "zz.js" "element") "close-right".toList
      fourTabsPercent).error = some .uriError ∧
    closeLogs (handleMenuClick noFiles (mkTab "zz.js" "element") "close-right".toList
      fourTabsPercent).world.trace = ["a.js".toList] ∧
    closeRequests (handleMenuClick noFiles (mkTab "zz.js" "element") "close-right".toList
      fourTabsPercent).world.trace = ["a.js".toList] := by
  decide

/-- C19 amended, at an instance: on the four tabs at the location of `c.js`,
`close-right` for a target `zz.js` that is not open calls `handleClose` on all
four, in order, and all four get their `closeTab` request. -/
theorem closeRight_unknown_target_witness :
    handleMenuClick noFiles (mkTab "zz.js" "element") "close-right".toList fourTabs =
      [tabA, tabB, tabC, tabD].foldl (fun o t => if o.error = none then
        handleClose noFiles false t o.world else o) ⟨fourTabs, none⟩ ∧
    closeLogs (handleMenuClick noFiles (mkTab "zz.js" "element") "close-right".toList
      fourTabs).world.trace = ["a.js".toList, "b.js".toList, "c.js".toList, "d.js".toList] ∧
    closeRequests (handleMenuClick noFiles (mkTab "zz.js" "element") "close-right".toList
      fourTabs).world.trace = ["a.js".toList, "b.js".toList, "c.js".toList, "d.js".toList] :=
  ⟨(closeRight_unknown_target noFiles fourTabs (mkTab "zz.js" "element") (by decide)).2.2.1,
    by decide,
    ((closeRight_unknown_target noFiles fourTabs (mkTab "zz.js" "element")
      (by decide)).2.2.2.2 (by decide) (by decide)).trans (by decide)⟩

/-- C12, refuted as stated: `close-others` does not always reach every open tab
other than the target.  On the four tabs with the target `b.js` and the
location `/element/c.js/%`, `handleClose` on `a.js` throws a `URIError`, and
`c.js` and `d.js`, whose keys differ from the target's, get no call. -/
theorem closeOthers_stops_at_throw :
    (fourTabsPercent.home.openTabs.map Tab.key).Nodup ∧
    (handleMenuClick noFiles tabB "close-others".toList fourTabsPercent).error =
      some .uriError ∧
    closeLogs (handleMenuClick noFiles tabB "close-others".toList fourTabsPercent).world.trace =
      ["a.js".toList] ∧
    closeRequests (handleMenuClick noFiles tabB "close-others".toList
      fourTabsPercent).world.trace = ["a.js".toList] := by
  decide

/-- C12 amended, at an instance: on the four tabs with the target `b.js` and the
location at `c.js`, `close-others` calls `handleClose` on `a.js`, `c.js` and
`d.js`, in that order, and the three get their `closeTab` request. -/
theorem handleMenuClick_others_self_witness :
    handleMenuClick noFiles tabB "close-others".toList fourTabs =
      [tabA, tabC, tabD].foldl (fun o t => if o.error = none then
        handleClose noFiles false t o.world else o) ⟨fourTabs, none⟩ ∧
    closeLogs (handleMenuClick noFiles tabB "close-others".toList fourTabs).world.trace =
      ["a.js".toList, "c.js".toList, "d.js".toList] ∧
    closeRequests (handleMenuClick noFiles tabB "close-others".toList fourTabs).world.trace =
      ["a.js".toList, "c.js".toList, "d.js".toList] :=
  ⟨(handleMenuClick_others_self noFiles fourTabs tabB (by decide)).1,
    by decide,
    ((handleMenuClick_others_self noFiles fourTabs tabB (by decide)).2.2.2.2.2.2.1
      (by decide) (by decide)).trans (by decide)⟩

/-! ## Element data -/

theorem getElementData_str (home : Home) (f d : Str) (hf : f ≠ [])
    (hd : decodeURIComponent f = .ok d) :
    getElementData home (.str f) =
      match home.elementById.lookup d with
      | none => .ok none
      | some ele => .ok (some (elementData ele (extensionOf (home.projectRoot ++ d)))) := by
  have he : f.isEmpty = false := by
    cases f with
    | nil => exact absurd rfl hf
    | cons _ _ => rfl
  simp only [getElementData, he, hd]
  rfl

theorem getElementData_throws (home : Home) (f : Str) (e : JsError) (hf : f ≠ [])
    (hd : decodeURIComponent f = .error e) : getElementData home (.str f) = .error e := by
  have he : f.isEmpty = false := by
    cases f with
    | nil => exact absurd rfl hf
    | cons _ _ => rfl
  simp only [getElementData, he, hd]
  rfl

theorem words_lower :
    ∀ wd ∈ scriptWords ++ codeWords ++ picWords, ∀ c ∈ wd.toList, c.isUpper = false := by
  decide

/-- An extension with an upper-case letter matches none of the three regular
expressions. -/
theorem regexTest_upper (words : List String) (x : Str)
    (hw : ∀ wd ∈ words, wd ∈ scriptWords ++ codeWords ++ picWords)
    (hx : ∃ c ∈ x, c.isUpper = true) : regexTest words (some x) = false := by
  by_contra hc
  have ht : regexTest words (some x) = true := by simpa using hc
  simp only [regexTest, Option.getD_some] at ht
  obtain ⟨y, hy, hxy⟩ := List.contains_iff_exists_mem_beq.mp ht
  have hxy1 : x = y := by simpa using hxy
  obtain ⟨wd, hwd, hxe⟩ := List.mem_map.mp hy
  obtain ⟨c, hcx, hup⟩ := hx
  have := words_lower wd (hw wd hwd) c (by rw [hxe, ← hxy1]; exact hcx)
  rw [this] at hup
  exact absurd hup (by decide)

/-- C13, refuted as stated: the classification is not case-insensitive.  With
`file.js`, `file.JS` and `FILE.JS` mapped to the same catalog entry, `file.js`
gets `hasDiagram`, `hasTest` and `hasCode`, and `file.JS` and `FILE.JS` get none
of the four flags: the regular expressions have no `i` flag. -/
theorem extension_case_matters :
    catalogHome.elementById.lookup "file.js".toList = some homeEntry ∧
    catalogHome.elementById.lookup "file.JS".toList = some homeEntry ∧
    catalogHome.elementById.lookup "FILE.JS".toList = some homeEntry ∧
    getElementData catalogHome (.str "file.js".toList) =
      .ok (some { ele := homeEntry, hasDiagram := true, hasTest := .bool true, hasCode := true,
                  isPic := false }) ∧
    getElementData catalogHome (.str "file.JS".toList) =
      .ok (some { ele := homeEntry, hasDiagram := false, hasTest := .bool false,
                  hasCode := false, isPic := false }) ∧
    getElementData catalogHome (.str "FILE.JS".toList) =
      .ok (some { ele := homeEntry, hasDiagram := false, hasTest := .bool false,
                  hasCode := false, isPic := false }) := by
  decide

/-- C13, amended: the classification goes by the extension as it is written.
For two files that decode and have catalog entries, `getElementData` returns
data for both; when the two full paths have the same extension and the entries
the same `feature`, the four flags agree; and an extension with an upper-case
letter gets `hasDiagram`, `hasCode` and `isPic` false and `hasTest` not true. -/
theorem getElementData_flags_by_extension (home : Home) (f1 f2 d1 d2 : Str) (e1 e2 : Element)
    (hf1 : f1 ≠ []) (hf2 : f2 ≠ []) (hd1 : decodeURIComponent f1 = .ok d1)
    (hd2 : decodeURIComponent f2 = .ok d2) (hl1 : home.elementById.lookup d1 = some e1)
    (hl2 : home.elementById.lookup d2 = some e2) :
    ∃ r1 r2, getElementData home (.str f1) = .ok (some r1) ∧
      getElementData home (.str f2) = .ok (some r2) ∧
      (extensionOf (home.projectRoot ++ d1) = extensionOf (home.projectRoot ++ d2) →
        e1.feature = e2.feature →
        r1.hasDiagram = r2.hasDiagram ∧ r1.hasTest = r2.hasTest ∧ r1.hasCode = r2.hasCode ∧
          r1.isPic = r2.isPic) ∧
      (∀ x, extensionOf (home.projectRoot ++ d1) = some x → (∃ c ∈ x, c.isUpper = true) →
        r1.hasDiagram = false ∧ r1.hasCode = false ∧ r1.isPic = false ∧
          r1.hasTest ≠ .bool true) := by
  refine ⟨elementData e1 (extensionOf (home.projectRoot ++ d1)),
    elementData e2 (extensionOf (home.projectRoot ++ d2)), ?_, ?_, ?_, ?_⟩
  · rw [getElementData_str home f1 d1 hf1 hd1, hl1]
  · rw [getElementData_str home f2 d2 hf2 hd2, hl2]
  · intro hext hfeat
    simp only [elementData, hext, hfeat, and_self]
  · intro x hx hup
    have h1 := regexTest_upper scriptWords x (fun wd h => by simp [h]) hup
    have h2 := regexTest_upper codeWords x (fun wd h => by simp [h]) hup
    have h3 := regexTest_upper picWords x (fun wd h => by simp [h]) hup
    simp only [elementData, hx, h1, h2, h3, true_and]
    unfold hasTestOf
    cases e1.feature with
    | none => simp
    | some ft =>
      by_cases hft : ft.isEmpty = true
      · simp [hft]
      · simp [hft, h1]

/-- C13 amended, at an instance: `FILE.JS`, whose extension `JS` has upper-case
letters, gets none of `hasDiagram`, `hasCode` and `isPic`. -/
theorem getElementData_flags_by_extension_witness :
    ∃ r1 r2, getElementData catalogHome (.str "FILE.JS".toList) = .ok (some r1) ∧
      getElementData catalogHome (.str "file.js".toList) = .ok (some r2) ∧
      r1.hasDiagram = false ∧ r1.hasCode = false ∧ r1.isPic = false ∧
      r1.hasTest ≠ .bool true := by
  obtain ⟨r1, r2, h1, h2, _, h4⟩ := getElementData_flags_by_extension catalogHome
    "FILE.JS".toList "file.js".toList "FILE.JS".toList "file.js".toList homeEntry homeEntry
    (by decide) (by decide) (by decide) (by decide) (by decide) (by decide)
  exact ⟨r1, r2, h1, h2, h4 "JS".toList (by decide) ⟨'J', by decide, by decide⟩⟩

/-- C14, refuted as stated: the catalog is not read under the file as it was passed
in.  For the argument `src%2Fa.js` the catalog has no entry, it has one under
`src/a.js`, and `getElementData` returns that entry with its flags, not `null`. -/
theorem getElementData_reads_decoded_key :
    catalogHome.elementById.lookup "src%2Fa.js".toList = none ∧
    catalogHome.elementById.lookup "src/a.js".toList = some homeEntry ∧
    getElementData catalogHome (.str "src%2Fa.js".toList) =
      .ok (some (elementData homeEntry (some "js".toList))) := by
  decide

/-- C14, amended: `getElementData` returns `null` exactly when the file is falsy
(`undefined`, `null` or the empty string) or it decodes and the catalog has no
entry under the URL-decoded file; when the file decodes and the catalog has an
entry under the decoded file it returns that entry with the four flags of the
extension of `projectRoot + file`; when the file does not decode it throws. -/
theorem getElementData_null_iff (home : Home) (file : JsVal) :
    (getElementData home file = .ok none ↔
      file = .undefined ∨ file = .null ∨ file = .str [] ∨
        ∃ f d, file = .str f ∧ decodeURIComponent f = .ok d ∧
          home.elementById.lookup d = none) ∧
    (∀ f d ele, file = .str f → f ≠ [] → decodeURIComponent f = .ok d →
      home.elementById.lookup d = some ele →
      getElementData home file =
        .ok (some { ele := ele
                    hasDiagram := regexTest scriptWords (extensionOf (home.projectRoot ++ d))
                    hasTest := hasTestOf ele.feature (extensionOf (home.projectRoot ++ d))
                    hasCode := regexTest codeWords (extensionOf (home.projectRoot ++ d))
                    isPic := regexTest picWords (extensionOf (home.projectRoot ++ d)) })) ∧
    (∀ f e, file = .str f → f ≠ [] → decodeURIComponent f = .error e →
      getElementData home file = .error e) := by
  refine ⟨?_, ?_, ?_⟩
  · cases file with
    | undefined => exact ⟨fun _ => Or.inl rfl, fun _ => rfl⟩
    | null => exact ⟨fun _ => Or.inr (Or.inl rfl), fun _ => rfl⟩
    | str f =>
      by_cases hf : f = []
      · subst hf
        exact ⟨fun _ => Or.inr (Or.inr (Or.inl rfl)), fun _ => rfl⟩
      · have hcases : ∀ P : Prop,
            ((JsVal.str f = .undefined ∨ JsVal.str f = .null ∨ JsVal.str f = .str [] ∨ P) ↔
              P) := by
          intro P
          constructor
          · rintro (h | h | h | h)
            · exact absurd h (by simp)
            · exact absurd h (by simp)
            · exact absurd (JsVal.str.inj h) hf
            · exact h
          · exact fun h => Or.inr (Or.inr (Or.inr h))
        rw [hcases]
        cases hd : decodeURIComponent f with
        | error e =>
          rw [getElementData_throws home f e hf hd]
          constructor
          · intro h
            exact absurd h (by simp)
          · rintro ⟨f1, d, h1, h2, _⟩
            rw [← JsVal.str.inj h1, hd] at h2
            exact absurd h2 (by simp)
        | ok d =>
          rw [getElementData_str home f d hf hd]
          cases hl : home.elementById.lookup d with
          | none => exact ⟨fun _ => ⟨f, d, rfl, hd, hl⟩, fun _ => rfl⟩
          | some ele =>
            constructor
            · intro h
              exact absurd h (by simp)
            · rintro ⟨f1, d1, h1, h2, h3⟩
              rw [← JsVal.str.inj h1, hd] at h2
              rw [← Except.ok.inj h2, hl] at h3
              exact absurd h3 (by simp)
  · intro f d ele hfile hf hd hl
    subst hfile
    rw [getElementData_str home f d hf hd, hl]
    rfl
  · intro f e hfile hf hd
    subst hfile
    exact getElementData_throws home f e hf hd

/-- C14 amended, at an instance: under the catalog key `file.js` the argument
`file.js` gets the entry with the flags of `js`. -/
theorem getElementData_null_iff_witness :
    getElementData catalogHome (.str "file.js".toList) =
      .ok (some { ele := homeEntry, hasDiagram := true, hasTest := .bool true, hasCode := true,
                  isPic := false }) :=
  ((getElementData_null_iff catalogHome (.str "file.js".toList)).2.1 "file.js".toList
    "file.js".toList homeEntry rfl (by decide) (by decide) (by decide)).trans (by decide)

/-! ## The cleanup of a close -/

theorem filter3_idem {α : Type} (p q r : α → Bool) (l : List α) :
    (((((l.filter p).filter q).filter r).filter p).filter q).filter r =
      ((l.filter p).filter q).filter r := by
  simp only [List.filter_filter]
  apply List.filter_congr
  intro x _
  cases p x <;> cases q x <;> cases r x <;> rfl

theorem cleanup_lookup (f : Files) (w : World) (id : Str) :
    (cleanup f w).editorStateMap.lookup id =
      if id = f.code ∨ id = f.test ∨ id = f.style then none else w.editorStateMap.lookup id := by
  simp only [cleanup, deleteKey]
  rw [lookup_filter_ne, lookup_filter_ne, lookup_filter_ne]
  by_cases h1 : id = f.test
  · rw [if_pos h1, if_pos (Or.inr (Or.inl h1))]
  · by_cases h2 : id = f.style
    · rw [if_neg h1, if_pos h2, if_pos (Or.inr (Or.inr h2))]
    · by_cases h3 : id = f.code
      · rw [if_neg h1, if_neg h2, if_pos h3, if_pos (Or.inl h3)]
      · rw [if_neg h1, if_neg h2, if_neg h3,
          if_neg (fun h => h.elim h3 (fun h => h.elim h1 h2))]

theorem cleanup_absent (f : Files) (w : World)
    (hc : w.editorStateMap.lookup f.code = none) (ht : w.editorStateMap.lookup f.test = none)
    (hs : w.editorStateMap.lookup f.style = none) :
    (cleanup f w).editorStateMap = w.editorStateMap := by
  simp only [cleanup, deleteKey]
  rw [filter_ne_of_lookup_none _ _ hc, filter_ne_of_lookup_none _ _ hs,
    filter_ne_of_lookup_none _ _ ht]

/-- C15: the cleanup of a completed close of a tab whose files are `f` leaves the
editor-state cache as `cleanup` makes it: no entry under `f.code`, `f.test` and
`f.style`, every other key mapped as before; when none of the three had an
entry the cache is the same as before.  The cleanup raises nothing: the
`closeTab` request that follows it is always sent. -/
theorem cleanup_cache_frame (f : Files) (tab : Tab) (w : World) :
    (doClose (some f) tab w).world.editorStateMap = (cleanup f w).editorStateMap ∧
    (∀ id, (cleanup f w).editorStateMap.lookup id =
      if id = f.code ∨ id = f.test ∨ id = f.style then none
      else w.editorStateMap.lookup id) ∧
    (w.editorStateMap.lookup f.code = none → w.editorStateMap.lookup f.test = none →
      w.editorStateMap.lookup f.style = none →
      (cleanup f w).editorStateMap = w.editorStateMap) ∧
    closeRequests (doClose (some f) tab w).world.trace = closeRequests w.trace ++ [tab.key] :=
  ⟨(doClose_parts (some f) tab w).2.1, cleanup_lookup f w, cleanup_absent f w,
    closeRequests_doClose (some f) tab w⟩

/-- C15, at an instance: in `dirtyWorld` the cache holds an entry under `src/a.js`
only; closing `src/a.js` leaves the cache empty. -/
theorem cleanup_cache_frame_witness :
    (doClose (some aFiles) fileTab dirtyWorld).world.editorStateMap = [] :=
  ((cleanup_cache_frame aFiles fileTab dirtyWorld).1).trans (by decide)

/-- C17: the cleanup is idempotent: run twice, the three cache deletions and the
three model disposals leave the cache, the models and the rest of the world as
one run leaves them. -/
theorem cleanup_idempotent (f : Files) (w : World) :
    cleanup f (cleanup f w) = cleanup f w ∧
    (cleanup f (cleanup f w)).editorStateMap = (cleanup f w).editorStateMap ∧
    (cleanup f (cleanup f w)).models = (cleanup f w).models := by
  have h : cleanup f (cleanup f w) = cleanup f w := by
    simp only [cleanup, deleteKey, modelDispose, filter3_idem]
  exact ⟨h, by rw [h], by rw [h]⟩

/-! ## The current file -/

theorem intercalate_cons_cons (sep a b : Str) (rest : List Str) :
    List.intercalate sep (a :: b :: rest) = a ++ sep ++ List.intercalate sep (b :: rest) := by
  simp [List.intercalate, List.intersperse]

theorem intercalate_split (sep : Char) (s : Str) : List.intercalate [sep] (split sep s) = s := by
  induction s with
  | nil => rfl
  | cons c cs ih =>
    unfold split
    cases hsp : split sep cs with
    | nil => exact absurd hsp (split_ne_nil sep cs)
    | cons seg segs =>
      rw [hsp] at ih
      by_cases h : c = sep
      · rw [if_pos h, intercalate_cons_cons, ih, h]
        rfl
      · rw [if_neg h]
        cases segs with
        | nil =>
          simp only [List.intercalate, List.intersperse, List.flatten_cons, List.flatten_nil,
            List.append_nil] at ih ⊢
          rw [ih]
        | cons seg2 rest =>
          rw [intercalate_cons_cons] at ih ⊢
          rw [List.cons_append, List.cons_append, ih]

theorem split_no_sep (sep : Char) (s : Str) : ∀ seg ∈ split sep s, sep ∉ seg := by
  induction s with
  | nil => simp [split]
  | cons c cs ih =>
    unfold split
    by_cases h : c = sep
    · rw [if_pos h]
      intro seg hseg
      rcases List.mem_cons.mp hseg with e | hin
      · rw [e]; simp
      · exact ih seg hin
    · rw [if_neg h]
      cases hsp : split sep cs with
      | nil => exact absurd hsp (split_ne_nil sep cs)
      | cons seg0 segs =>
        rw [hsp] at ih
        intro seg hseg
        rcases List.mem_cons.mp hseg with e | hin
        · rw [e]
          intro hm
          rcases List.mem_cons.mp hm with e2 | hin2
          · exact h e2.symm
          · exact ih seg0 (List.mem_cons_self _ _) hin2
        · exact ih seg (List.mem_cons_of_mem _ hin)

theorem mapDecode_ok_iff (xs ys : List Str) :
    mapDecode xs = .ok ys ↔ List.Forall₂ (fun x y => decodeURIComponent x = .ok y) xs ys := by
  induction xs generalizing ys with
  | nil =>
    constructor
    · intro h
      rw [mapDecode] at h
      rw [← Except.ok.inj h]
      exact List.Forall₂.nil
    · intro h
      cases h
      rfl
  | cons x xs ih =>
    constructor
    · intro h
      rw [mapDecode] at h
      cases hx : decodeURIComponent x with
      | error e =>
        rw [hx] at h
        exact absurd h (by simp)
      | ok y =>
        rw [hx] at h
        cases hxs : mapDecode xs with
        | error e =>
          rw [hxs] at h
          exact absurd h (by simp)
        | ok zs =>
          rw [hxs] at h
          rw [← Except.ok.inj h]
          exact List.Forall₂.cons hx ((ih zs).mp hxs)
    · intro h
      cases h with
      | cons hx hrest => exact mapDecode_cons x xs _ _ hx ((ih _).mpr hrest)

theorem mapDecode_error_iff (xs : List Str) :
    (∃ e, mapDecode xs = .error e) ↔ ∃ x ∈ xs, ∃ e, decodeURIComponent x = .error e := by
  induction xs with
  | nil =>
    constructor
    · rintro ⟨e, h⟩
      rw [mapDecode] at h
      exact absurd h (by simp)
    · rintro ⟨x, hx, _⟩
      exact absurd hx (List.not_mem_nil x)
  | cons x xs ih =>
    cases hx : decodeURIComponent x with
    | error e =>
      exact ⟨fun _ => ⟨x, List.mem_cons_self _ _, e, hx⟩,
        fun _ => ⟨e, by rw [mapDecode, hx]⟩⟩
    | ok y =>
      cases hxs : mapDecode xs with
      | error e =>
        obtain ⟨z, hz, e1, he1⟩ := ih.mp ⟨e, hxs⟩
        exact ⟨fun _ => ⟨z, List.mem_cons_of_mem _ hz, e1, he1⟩,
          fun _ => ⟨e, by rw [mapDecode, hx, hxs]⟩⟩
      | ok ys =>
        constructor
        · rintro ⟨e, h⟩
          rw [mapDecode, hx, hxs] at h
          exact absurd h (by simp)
        · rintro ⟨z, hz, e1, he1⟩
          rcases List.mem_cons.mp hz with e2 | hin
          · rw [e2, hx] at he1
            exact absurd he1 (by simp)
          · obtain ⟨e3, he3⟩ := ih.mpr ⟨z, hin, e1, he1⟩
            rw [hxs] at he3
            exact absurd he3 (by simp)

/-- C16, refuted as stated: with `element` as the first segment and no second
segment `getCurrentFile` does not return `null`: at `/element` it returns
`arr[1]`, which is `undefined`. -/
theorem getCurrentFile_element_alone :
    compact (split '/' (mkWorld "/element" [] []).routerPathname) = ["element".toList] ∧
    getCurrentFile (mkWorld "/element" [] []) = .ok .undefined ∧
    getCurrentFile (mkWorld "/element" [] []) ≠ .ok .null := by
  decide

/-- C16, amended: `getCurrentFile` splits the pathname on `/` (the pieces have no
`/` and, joined by `/`, give the pathname back), drops the empty pieces and
URL-decodes the others in order.  When they all decode it returns the second
decoded segment if the first is `element`, `undefined` if `element` is the
only segment, and `null` if the first is not `element` or there is none; it
throws exactly when some segment does not decode. -/
theorem getCurrentFile_segments (w : World) :
    List.intercalate ['/'] (split '/' w.routerPathname) = w.routerPathname ∧
    (∀ seg ∈ split '/' w.routerPathname, '/' ∉ seg) ∧
    (∀ seg, seg ∈ compact (split '/' w.routerPathname) ↔
      seg ∈ split '/' w.routerPathname ∧ seg ≠ []) ∧
    (∀ arr, List.Forall₂ (fun x y => decodeURIComponent x = .ok y)
        (compact (split '/' w.routerPathname)) arr →
      getCurrentFile w =
        match arr with
        | first :: second :: _ =>
          if first = "element".toList then .ok (.str second) else .ok .null
        | [first] => if first = "element".toList then .ok .undefined else .ok .null
        | [] => .ok .null) ∧
    ((∃ e, getCurrentFile w = .error e) ↔
      ∃ seg ∈ compact (split '/' w.routerPathname), ∃ e, decodeURIComponent seg = .error e) := by
  refine ⟨intercalate_split '/' _, split_no_sep '/' _, ?_, ?_, ?_⟩
  · intro seg
    simp only [compact, List.mem_filter, Bool.not_eq_true', List.isEmpty_eq_false]
  · intro arr harr
    have hm := (mapDecode_ok_iff _ _).mpr harr
    rw [getCurrentFile, hm]
    cases arr with
    | nil => rfl
    | cons first rest =>
      cases rest with
      | nil =>
        by_cases hf : first = "element".toList
        · simp only [elemAt, List.get?, hf, if_true]
        · have hne : ¬ JsVal.str first = JsVal.str "element".toList :=
            fun h => hf (JsVal.str.inj h)
          simp only [elemAt, List.get?, hf, hne, if_false]
      | cons second tail =>
        by_cases hf : first = "element".toList
        · simp only [elemAt, List.get?, hf, if_true]
        · have hne : ¬ JsVal.str first = JsVal.str "element".toList :=
            fun h => hf (JsVal.str.inj h)
          simp only [elemAt, List.get?, hf, hne, if_false]
  · rw [← mapDecode_error_iff]
    unfold getCurrentFile
    cases mapDecode (compact (split '/' w.routerPathname)) with
    | error e => exact ⟨fun _ => ⟨e, rfl⟩, fun _ => ⟨e, rfl⟩⟩
    | ok arr =>
      constructor
      · rintro ⟨e, h⟩
        by_cases hel : elemAt arr 0 = JsVal.str "element".toList
        · simp only [hel, if_true] at h
          exact absurd h (by simp)
        · simp only [hel, if_false] at h
          exact absurd h (by simp)
      · rintro ⟨e, h⟩
        exact absurd h (by simp)

/-- C16 amended, at an instance: at `/element/src%2Fa.js/code` the segments decode
to `element`, `src/a.js`, `code`, and `getCurrentFile` returns `src/a.js`. -/
theorem getCurrentFile_segments_witness :
    getCurrentFile (mkWorld "/element/src%2Fa.js/code" [] []) = .ok (.str "src/a.js".toList) :=
  (getCurrentFile_segments (mkWorld "/element/src%2Fa.js/code" [] [])).2.2.2.1
    ["element".toList, "src/a.js".toList, "code".toList]
    ((mapDecode_ok_iff _ _).mp (by decide))

/-! ## Opening a tab makes it current -/

/-- After `openTab` on a tab whose path is the string `p`, from a world whose two
pathnames agree, both pathnames are `p`. -/
theorem openTab_pathnames (w : World) (key : Option Str) (tab : Tab) (p : Str)
    (hfind : findTab w.home.openTabs key = some tab) (hpath : (tabPath key tab).1 = some p)
    (hsync : w.routerPathname = w.docPathname) :
    (openTab key w).world.routerPathname = p ∧ (openTab key w).world.docPathname = p := by
  unfold openTab
  rw [hfind]
  by_cases hp : w.docPathname = p <;>
    by_cases hl : (tabPath key tab).2 = true <;> simp [hp, hl, hpath, hsync]

/-- C18, refuted as stated: an element tab with a non-empty key need not be
current after it was opened.  For the tab `src/a.js` with the sub-view `%`,
`openTab` pushes `/element/src%2Fa.js/%`, and `isCurrentTab` then throws a
`URIError`: `getCurrentFile` decodes every segment, the last one too. -/
theorem open_then_current_can_throw :
    percentTab ∈ (mkWorld "/" [percentTab] ["src/a.js"]).home.openTabs ∧
    percentTab.type = "element".toList ∧ percentTab.key ≠ [] ∧
    pushes (openTab (some percentTab.key)
      (mkWorld "/" [percentTab] ["src/a.js"])).world.trace =
      [some "/element/src%2Fa.js/%".toList] ∧
    isCurrentTab (openTab (some percentTab.key) (mkWorld "/" [percentTab] ["src/a.js"])).world
      percentTab = .error .uriError := by
  decide

/-- C18, amended: for an open tab (keys being unique, and the router and document
pathnames agreeing beforehand), after `openTab(tab.key)` the tab is current
when its type is `home` or `routes`, and when its type is `element`, its key is
not empty and the segments of its sub-view (read `undefined` when absent)
URL-decode. -/
theorem open_then_current (w : World) (tab : Tab) (hmem : tab ∈ w.home.openTabs)
    (huniq : (w.home.openTabs.map Tab.key).Nodup) (hsync : w.routerPathname = w.docPathname) :
    (tab.type = "home".toList →
      isCurrentTab (openTab (some tab.key) w).world tab = .ok true) ∧
    (tab.type = "routes".toList →
      isCurrentTab (openTab (some tab.key) w).world tab = .ok true) ∧
    (tab.type = "element".toList → tab.key ≠ [] →
      (∃ segs, mapDecode (compact (split '/' (interpolate tab.subTab))) = .ok segs) →
      isCurrentTab (openTab (some tab.key) w).world tab = .ok true) := by
  have hfind := findTab_of_mem w.home.openTabs tab hmem huniq
  refine ⟨?_, ?_, ?_⟩
  · intro h
    have hp : (tabPath (some tab.key) tab).1 = some "/".toList := by
      rw [tabPath_home _ tab h]
    have hdoc := (openTab_pathnames w _ tab _ hfind hp hsync).2
    rw [isCurrentTab, if_pos h]
    simp only [hdoc]
    rfl
  · intro h
    have hp : (tabPath (some tab.key) tab).1 =
        some ("/".toList ++ tab.key ++ "/".toList ++ tab.subTab.getD []) := by
      rw [tabPath_routes _ tab h]
    have hdoc := (openTab_pathnames w _ tab _ hfind hp hsync).2
    rw [isCurrentTab, if_neg (by rw [h]; decide), if_neg (by rw [h]; decide), if_pos h]
    simp only [hdoc, startsWith_eq_decide, List.append_assoc]
    have hpre : ("/".toList ++ tab.key) <+: ("/".toList ++ (tab.key ++ ("/".toList ++
        tab.subTab.getD []))) := by
      rw [← List.append_assoc]
      exact List.prefix_append _ _
    simp only [decide_eq_true hpre]
  · intro h hk hs
    obtain ⟨segs, hsegs⟩ := hs
    have hp : (tabPath (some tab.key) tab).1 =
        some ("/element/".toList ++ encodeURIComponent tab.key ++ "/".toList ++
          interpolate tab.subTab) := by
      rw [tabPath_element _ tab h]
      rfl
    have hrouter := (openTab_pathnames w _ tab _ hfind hp hsync).1
    have hg := getCurrentFile_element (openTab (some tab.key) w).world
      (encodeURIComponent tab.key) tab.key (interpolate tab.subTab) segs hrouter
      (encode_ne_nil tab.key hk) (encode_no_slash tab.key) (decode_encode tab.key) hsegs
    rw [isCurrentTab_element _ tab h, hg]
    simp [Except.map]

/-- C18 amended, at an instance: from `/`, after `openTab('src/a.js')` the element
tab `src/a.js` with the sub-view `code` is current. -/
theorem open_then_current_witness :
    isCurrentTab (openTab (some fileTab.key)
      (mkWorld "/" [homeTab, fileTab] ["#home", "src/a.js"])).world fileTab = .ok true :=
  (open_then_current (mkWorld "/" [homeTab, fileTab] ["#home", "src/a.js"]) fileTab
    (by decide) (by decide) rfl).2.2 rfl (by decide) ⟨["code".toList], by decide⟩

end TabsBar
